import Mathlib

/-!
Verification of the liftoff interpreter (lexer, C-style for lowering, and
tree-walking evaluator) against its natural-language specification.

The definitions below are a shallow embedding of the Python sources:

* `src/parse/lexer.py` — the lexer, embedded with explicit `(line, col)`
  position tracking and the remaining input as a `List Char`.  The Python
  implementation walks an index into the source string with save/restore;
  consuming the list models advancing the index, and a saved `(line, col,
  rest)` triple models `LexerState`.
* `src/parse/parser.py` — only the C-style for-loop lowering
  (`_parse_for_loop_stmt` lines 179-196 and `_rewrite_continue_stmts`).
* `src/runtime/interpreter.py` and `src/runtime/builtins.py` — the
  evaluator.  Python `Var` objects are mutable cells shared between
  environment copies, so the embedding uses a store of cells indexed by
  `Nat`; an environment holds cell ids, `RuntimeEnv.copy` copies the stacks
  (in Lean, plain values, so copy is the identity) while the cells stay
  shared.  Recursion of the evaluator is bounded by an explicit fuel; fuel
  is consumed at while-loop iterations, for-each iterations, and function
  calls only, so two programs that perform the same loop iterations and
  calls consume identical fuel.

Character classification helpers are ASCII approximations of Python's
unicode-aware `str.isspace`/`str.isalpha`/`str.isalnum`/`str.isdigit`; all
inputs considered in the theorems are ASCII.
-/

namespace Liftoff

/-! ## Tokens (src/parse/tokens.py)

Only the kinds the lexer can actually emit are embedded; the Python enum
also declares `LINE_COMMENT_START`, `MULTILINE_COMMENT_START` and
`MULTILINE_COMMENT_END`, which no code produces. -/

inductive TokenKind where
  | boolLit | floatLit | strLit | intLit | nullLit
  | comma | colon | eqTok | leftBrace | leftParen | leftSquare
  | rightBrace | rightParen | rightSquare | semicolon
  | attrAccess | identifier
  | kwBreak | kwCatch | kwContinue | kwElse | kwFn | kwFor
  | kwIf | kwIn | kwLet | kwReturn | kwTry | kwWhile
  | eofTok
deriving DecidableEq, Repr

structure Token where
  kind : TokenKind
  val : String
  line : Nat
  col : Nat
deriving DecidableEq, Repr

/-- `KEYWORDS` from src/parse/tokens.py. -/
def keywordKind (w : String) : Option TokenKind :=
  if w = "break" then some .kwBreak
  else if w = "catch" then some .kwCatch
  else if w = "continue" then some .kwContinue
  else if w = "else" then some .kwElse
  else if w = "fn" then some .kwFn
  else if w = "for" then some .kwFor
  else if w = "if" then some .kwIf
  else if w = "in" then some .kwIn
  else if w = "let" then some .kwLet
  else if w = "return" then some .kwReturn
  else if w = "try" then some .kwTry
  else if w = "while" then some .kwWhile
  else none

/-- `SYNTAX` from src/parse/tokens.py: single-character punctuation. -/
def punctKind (c : Char) : Option TokenKind :=
  if c = ',' then some .comma
  else if c = ':' then some .colon
  else if c = '=' then some .eqTok
  else if c = '{' then some .leftBrace
  else if c = '}' then some .rightBrace
  else if c = '(' then some .leftParen
  else if c = ')' then some .rightParen
  else if c = '[' then some .leftSquare
  else if c = ']' then some .rightSquare
  else if c = ';' then some .semicolon
  else none

/-! ## Lexer (src/parse/lexer.py) -/

/-- ASCII approximation of `str.isspace`. -/
def pyIsSpace (c : Char) : Bool :=
  c = ' ' || c = '\t' || c = '\n' || c = '\r' || c = Char.ofNat 11 || c = Char.ofNat 12

/-- ASCII approximation of `str.isalpha`. -/
def pyIsAlpha (c : Char) : Bool := c.isAlpha

/-- ASCII approximation of `str.isdigit`. -/
def pyIsDigit (c : Char) : Bool := c.isDigit

/-- `is_word_char` (lexer.py line 184): alphanumeric or underscore. -/
def isWordChar (c : Char) : Bool := c.isAlphanum || c = '_'

/-- Line update of `Lexer._next`: a newline advances the line counter. -/
def advLine (line : Nat) (c : Char) : Nat := if c = '\n' then line + 1 else line

/-- Column update of `Lexer._next`: a newline resets the column to 1. -/
def advCol (col : Nat) (c : Char) : Nat := if c = '\n' then 1 else col + 1

/-- `Lexer._accept_run`: consume the longest run of characters satisfying
`p`, returning the consumed run, the updated position and the rest. -/
def acceptRun (p : Char → Bool) (line col : Nat) :
    List Char → List Char × Nat × Nat × List Char
  | [] => ([], line, col, [])
  | c :: cs =>
    if p c then
      match acceptRun p (advLine line c) (advCol col c) cs with
      | (acc, l2, c2, rest) => (c :: acc, l2, c2, rest)
    else ([], line, col, c :: cs)

/-- Result of lexing one token (`Lexer._lex_any`). -/
inductive LexStep where
  | tok (t : Token) (line col : Nat) (rest : List Char)
  | eofR (line col : Nat)
  | synErr (msg : String) (line col : Nat)
  | intErr (msg : String)
  | fuelOut
deriving DecidableEq, Repr

/-- Result of lexing a whole source string (`Lexer.lex`). -/
inductive LexRes where
  | ok (toks : List Token)
  | synErr (msg : String) (line col : Nat)
  | intErr (msg : String)
  | fuelOut
deriving DecidableEq, Repr

/-- Message of `InternalError("lexer: next called on finished lexer")`,
raised by `Lexer._next` (and hence `Lexer._peek`) at end of input. -/
def nextOnDoneMsg : String := "lexer: next called on finished lexer"

/-- Result of `Lexer._lex_multiline_comment`. -/
inductive MulRes where
  | okc (line col : Nat) (rest : List Char)
  | synErr (msg : String) (line col : Nat)
  | intErr (msg : String)
deriving DecidableEq, Repr

/-- The loop of `Lexer._lex_multiline_comment`.  The Python loop condition
is `not self._is_done() and c1 != "*" or c2 != "/"`, which parses as
`(not done and c1 != "*") or c2 != "/"`; the body shifts `c2` into `c1` and
reads the next character, raising the internal next-on-done error when the
input is exhausted.  `eline`/`ecol` are the positions saved on entry, used
for the unclosed-comment error. -/
def mulCommentLoop (eline ecol : Nat) (c1 c2 : Char) (line col : Nat) :
    List Char → MulRes
  | [] =>
    -- done: the loop condition reduces to `c2 != '/'`
    if c2 ≠ '/' then .intErr nextOnDoneMsg
    else if c1 ≠ '*' then .synErr "unclosed multiline comment" eline ecol
    else .okc line col []
  | c :: cs =>
    if c1 ≠ '*' || c2 ≠ '/' then
      mulCommentLoop eline ecol c2 c (advLine line c) (advCol col c) cs
    else .okc line col (c :: cs)

/-- `Lexer._lex_multiline_comment`: reads two characters up front (each a
`_next`, failing internally at end of input), then runs the loop. -/
def mulComment (line col : Nat) : List Char → MulRes
  | [] => .intErr nextOnDoneMsg
  | c1 :: cs =>
    match cs with
    | [] => .intErr nextOnDoneMsg
    | c2 :: cs2 =>
      mulCommentLoop line col c1 c2
        (advLine (advLine line c1) c2) (advCol (advCol col c1) c2) cs2

/-- `Lexer._lex_line_comment`: consume through the end of line; end of
input terminates cleanly. -/
def lineComment (line col : Nat) : List Char → Nat × Nat × List Char
  | [] => (line, col, [])
  | c :: cs =>
    if c = '\n' then (advLine line c, advCol col c, cs)
    else lineComment (advLine line c) (advCol col c) cs

/-- `Lexer._lex_num_lit`.  After the run of digits the Python code calls
`self._peek()`, which raises the internal next-on-done error when the
digits are the last characters of the source. -/
def numLit (line col : Nat) (rest : List Char) : LexStep :=
  match acceptRun pyIsDigit line col rest with
  | (whole, l1, c1, rest1) =>
    match rest1 with
    | [] => .intErr nextOnDoneMsg
    | c :: cs =>
      if c = '.' then
        match acceptRun pyIsDigit (advLine l1 c) (advCol c1 c) cs with
        | (frac, l2, c2, rest2) =>
          .tok ⟨.floatLit, String.mk (whole ++ '.' :: frac), line, col⟩ l2 c2 rest2
      else .tok ⟨.intLit, String.mk whole, line, col⟩ l1 c1 rest1

/-- Prepend a consumed character to a string-literal scan result. -/
def scanCons (c : Char) :
    Bool × Bool × List Char × Nat × Nat × List Char →
      Bool × Bool × List Char × Nat × Nat × List Char
  | (f, e, consumed, l3, c3, rest) => (f, e, c :: consumed, l3, c3, rest)

/-- The scanning loop of `Lexer._lex_str_lit`: returns
`(found_close, in_escape, consumed, line, col, rest)`.  In the escape
state the next character is consumed blindly; otherwise a backslash enters
the escape state and an unescaped quote closes the literal. -/
def strLitScan : Bool → Nat → Nat → List Char →
    Bool × Bool × List Char × Nat × Nat × List Char
  | inEsc, line, col, [] => (false, inEsc, [], line, col, [])
  | true, line, col, c :: cs =>
    scanCons c (strLitScan false (advLine line c) (advCol col c) cs)
  | false, line, col, c :: cs =>
    if c = '\\' then scanCons c (strLitScan true (advLine line c) (advCol col c) cs)
    else if c = '"' then (true, false, [c], advLine line c, advCol col c, cs)
    else scanCons c (strLitScan false (advLine line c) (advCol col c) cs)

/-- `Lexer._lex_str_lit`: consume the opening quote, scan, then report
"unclosed string literal" when no closing quote was found, and otherwise
"unexpected escape character at end of string literal" when the scan ended
mid-escape.  The token text is the raw source slice including quotes. -/
def strLit (line col : Nat) : List Char → LexStep
  | [] => .intErr nextOnDoneMsg
  | q :: cs =>
    match strLitScan false (advLine line q) (advCol col q) cs with
    | (found, inEsc, consumed, l2, c2, rest) =>
      if ¬found then .synErr "unclosed string literal" line col
      else if inEsc then
        .synErr "unexpected escape character at end of string literal" line col
      else .tok ⟨.strLit, String.mk (q :: consumed), line, col⟩ l2 c2 rest

/-- `Lexer._lex_identifier`: read a word, classify it as keyword, boolean
literal, null literal, or identifier. -/
def identTok (line col : Nat) (rest : List Char) : LexStep :=
  match acceptRun isWordChar line col rest with
  | (wordChars, l1, c1, rest1) =>
    let word := String.mk wordChars
    match keywordKind word with
    | some k => .tok ⟨k, word, line, col⟩ l1 c1 rest1
    | none =>
      if word = "true" || word = "false" then .tok ⟨.boolLit, word, line, col⟩ l1 c1 rest1
      else if word = "null" then .tok ⟨.nullLit, word, line, col⟩ l1 c1 rest1
      else .tok ⟨.identifier, word, line, col⟩ l1 c1 rest1

/-- `Lexer._lex_any`: skip whitespace, then classify by the first
character.  The recursion after a comment is bounded by `fuel`; callers
pass `rest.length + 1`, which is always sufficient since every step
consumes input. -/
def lexAny (fuel : Nat) (line col : Nat) (rest : List Char) : LexStep :=
  match acceptRun pyIsSpace line col rest with
  | (_, l0, c0, r0) =>
    match r0 with
    | [] => .eofR l0 c0
    | c :: cs =>
      if pyIsAlpha c || c = '_' then identTok l0 c0 r0
      else
        match punctKind c with
        | some k => .tok ⟨k, String.mk [c], l0, c0⟩ (advLine l0 c) (advCol c0 c) cs
        | none =>
          if c = '/' then
            match cs with
            | [] => .synErr "unexpected character '/'" l0 c0
            | d :: _ =>
              if d = '*' then
                match mulComment (advLine l0 c) (advCol c0 c) cs with
                | .okc l2 c2 r2 =>
                  match r2 with
                  | [] => .eofR l2 c2
                  | _ :: _ =>
                    match fuel with
                    | 0 => .fuelOut
                    | f + 1 => lexAny f l2 c2 r2
                | .synErr m l2 c2 => .synErr m l2 c2
                | .intErr m => .intErr m
              else if d = '/' then
                match lineComment (advLine l0 c) (advCol c0 c) cs with
                | (l2, c2, r2) =>
                  match r2 with
                  | [] => .eofR l2 c2
                  | _ :: _ =>
                    match fuel with
                    | 0 => .fuelOut
                    | f + 1 => lexAny f l2 c2 r2
              else .synErr "unexpected character '/'" l0 c0
          else if c = '.' then
            match cs with
            | [] => .synErr "unexpected character '.'" l0 c0
            | d :: _ =>
              if pyIsAlpha d || d = '_' then
                match acceptRun isWordChar (advLine l0 c) (advCol c0 c) cs with
                | (attr, l2, c2, r2) =>
                  .tok ⟨.attrAccess, String.mk ('.' :: attr), l0, c0⟩ l2 c2 r2
              else numLit l0 c0 r0
          else if c = '"' then strLit l0 c0 r0
          else if pyIsDigit c then numLit l0 c0 r0
          else .synErr ("unexpected character '" ++ String.mk [c] ++ "'") l0 c0

/-- The token-collecting loop of `Lexer.lex`. -/
def lexLoop (fuel : Nat) (line col : Nat) (rest : List Char) (acc : List Token) :
    LexRes :=
  match fuel with
  | 0 => .fuelOut
  | f + 1 =>
    match lexAny (rest.length + 1) line col rest with
    | .tok t l2 c2 r2 => lexLoop f l2 c2 r2 (acc ++ [t])
    | .eofR l2 c2 => .ok (acc ++ [⟨.eofTok, "", l2, c2⟩])
    | .synErr m l2 c2 => .synErr m l2 c2
    | .intErr m => .intErr m
    | .fuelOut => .fuelOut

/-- `Lexer.lex`: positions start at line 1, column 1.  The fuel
`src.length + 1` bounds the number of tokens, each of which consumes at
least one character. -/
def lex (src : String) : LexRes := lexLoop (src.length + 1) 1 1 src.data []

mutual
/-- Specification-side predicate: scanning the characters after the opening
quote of a string literal, is an unescaped closing quote ever found?  A
backslash consumes the following character (`closesStringEsc`). -/
def closesString : List Char → Bool
  | [] => false
  | c :: cs =>
    if c = '\\' then closesStringEsc cs
    else if c = '"' then true
    else closesString cs
def closesStringEsc : List Char → Bool
  | [] => false
  | _ :: cs => closesString cs
end

/-- The `found_close` flag computed by the string-literal scan agrees with
`closesString` (stated for both values of the `in_escape` state). -/
theorem strLitScan_found (s : List Char) :
    (∀ line col, (strLitScan false line col s).1 = closesString s) ∧
    (∀ line col, (strLitScan true line col s).1 = closesStringEsc s) := by
  induction s with
  | nil =>
    constructor <;> intro line col <;>
      simp [strLitScan, closesString, closesStringEsc]
  | cons c cs ih =>
    constructor
    · intro line col
      by_cases hb : c = '\\'
      · subst hb
        rw [closesString, if_pos rfl]
        rw [strLitScan, if_pos rfl]
        have h2 := ih.2 (advLine line '\\') (advCol col '\\')
        cases hs : strLitScan true (advLine line '\\') (advCol col '\\') cs with
        | mk f rest2 =>
          rw [hs] at h2
          obtain ⟨e2, consumed2, l3, c3, r3⟩ := rest2
          simpa [scanCons] using h2
      · by_cases hq : c = '"'
        · subst hq
          rw [closesString, if_neg hb, if_pos rfl]
          rw [strLitScan, if_neg hb, if_pos rfl]
        · have h1 := ih.1 (advLine line c) (advCol col c)
          rw [closesString, if_neg hb, if_neg hq]
          rw [strLitScan, if_neg hb, if_neg hq]
          cases hs : strLitScan false (advLine line c) (advCol col c) cs with
          | mk f rest2 =>
            rw [hs] at h1
            obtain ⟨e2, consumed2, l3, c3, r3⟩ := rest2
            simpa [scanCons] using h1
    · intro line col
      have h1 := ih.1 (advLine line c) (advCol col c)
      rw [strLitScan, closesStringEsc]
      cases hs : strLitScan false (advLine line c) (advCol col c) cs with
      | mk f rest2 =>
        rw [hs] at h1
        obtain ⟨e2, consumed2, l3, c3, r3⟩ := rest2
        simpa [scanCons] using h1

/-- C3: the lexer does *not* always end in EOF or fail with a syntax
error.  A source consisting of a bare integer literal (the numeric path
peeks past the digits) and an unclosed multiline comment both make it raise
`InternalError("lexer: next called on finished lexer")`. -/
theorem lex_internal_error_on_digits_at_eof :
    lex "123" = .intErr nextOnDoneMsg ∧ lex "/*" = .intErr nextOnDoneMsg := by
  constructor <;> rfl

/-- C9 counterexample: on a string literal whose end of input arrives
mid-escape (source `"abc\`), the lexer reports "unclosed string literal",
not "unexpected escape character at end of string literal" as the claim
states. -/
theorem lex_eof_mid_escape_message :
    lex "\"abc\\" = .synErr "unclosed string literal" 1 1 ∧
      LexRes.synErr "unclosed string literal" 1 1 ≠
        LexRes.synErr "unexpected escape character at end of string literal" 1 1 := by
  constructor
  · rfl
  · decide

/-- C9 amended: whenever end of input is reached inside a string literal —
whether or not it arrives mid-escape — the lexer fails with the syntax
error "unclosed string literal" positioned at the opening quote; the
mid-escape branch of `_lex_str_lit` is unreachable because `found_close`
and `in_escape` are never simultaneously true. -/
theorem lex_unclosed_string (s : List Char) (h : closesString s = false) :
    lex (String.mk ('"' :: s)) = .synErr "unclosed string literal" 1 1 := by
  have hlen : (String.mk ('"' :: s)).length = s.length + 1 := by
    simp [String.length, String.mk]
  show lexLoop ((String.mk ('"' :: s)).length + 1) 1 1 (String.mk ('"' :: s)).data [] =
    .synErr "unclosed string literal" 1 1
  rw [hlen]
  show lexLoop (s.length + 1 + 1) 1 1 ('"' :: s) [] = _
  rw [lexLoop]
  have hscan := (strLitScan_found s).1 (advLine 1 '"') (advCol 1 '"')
  rw [h] at hscan
  have hany : lexAny (('"' :: s).length + 1) 1 1 ('"' :: s) =
      .synErr "unclosed string literal" 1 1 := by
    rw [lexAny]
    have hrun : acceptRun pyIsSpace 1 1 ('"' :: s) = ([], 1, 1, '"' :: s) := by
      simp [acceptRun, pyIsSpace]
    rw [hrun]
    simp only [pyIsAlpha, punctKind]
    norm_num
    show strLit 1 1 ('"' :: s) = _
    rw [strLit]
    cases hs : strLitScan false (advLine 1 '"') (advCol 1 '"') s with
    | mk f rest2 =>
      rw [hs] at hscan
      simp only at hscan
      subst hscan
      simp
  rw [hany]

/-- C9 witness: the amended theorem applied to the concrete mid-escape
input `"abc\`. -/
theorem lex_unclosed_string_witness :
    closesString "abc\\".data = false ∧
      lex (String.mk ('"' :: "abc\\".data)) = .synErr "unclosed string literal" 1 1 :=
  ⟨by decide, lex_unclosed_string "abc\\".data (by decide)⟩

/-! ## AST (src/parse/nodes.py)

Custom list types (`ExprList`, `StmtList`) keep the recursion structural.
Nodes not reached by any claim (float literals, list/dict literals,
attribute and item access/assignment) are omitted.  `line`/`col` fields,
which only feed error messages, are dropped.  The parser produces `IfStmt`
nodes with an optional else branch; the embedding splits them into
`ifStmt`/`ifElseStmt` constructors. -/

mutual
inductive Expr where
  | boolLit (b : Bool)
  | intLit (n : Int)
  | strLit (s : String)
  | nullLit
  | access (name : String)
  | assignExpr (name : String) (val : Expr)
  | callExpr (callee : Expr) (args : ExprList)
deriving DecidableEq, Repr
inductive ExprList where
  | nil
  | cons (e : Expr) (es : ExprList)
deriving DecidableEq, Repr
end

mutual
inductive Stmt where
  | blockStmt (ss : StmtList)
  | varDecl (name : String) (val : Expr)
  | ifStmt (cond : Expr) (ifBranch : Stmt)
  | ifElseStmt (cond : Expr) (ifBranch : Stmt) (elseBranch : Stmt)
  | whileLoop (cond : Expr) (body : Stmt)
  | forEach (binding : String) (iterable : Expr) (body : Stmt)
  | breakStmt
  | continueStmt
  | returnStmt (val : Option Expr)
  | tryStmt (tryBlock : Stmt) (catchBlock : Stmt) (errBinding : Option String)
  -- the ill-typed TryStmt node built by Parser._rewrite_continue_stmts
  -- (parser.py 253-260): the node constructor's positional catch_block
  -- argument receives err_var_binding_name (a string or None, held here as
  -- catchSlot) and its err_var_binding_name argument receives the rewritten
  -- catch block node (held here as errSlot)
  | tryStmtSwapped (tryBlock : Stmt) (catchSlot : Option String) (errSlot : Stmt)
  | exprStmt (e : Expr)
deriving DecidableEq, Repr
inductive StmtList where
  | nil
  | cons (s : Stmt) (ss : StmtList)
deriving DecidableEq, Repr
end

/-- Convert a Lean list of statements into a `StmtList`. -/
def slist : List Stmt → StmtList
  | [] => .nil
  | s :: ss => .cons s (slist ss)

/-- Convert a Lean list of expressions into an `ExprList`. -/
def elist : List Expr → ExprList
  | [] => .nil
  | e :: es => .cons e (elist es)

/-- Python list `append` on a `StmtList`. -/
def StmtList.push (ss : StmtList) (s : Stmt) : StmtList :=
  match ss with
  | .nil => .cons s .nil
  | .cons t ts => .cons t (ts.push s)

/-- `isinstance(stmt, ContinueStmt)`. -/
def Stmt.isContinue : Stmt → Bool
  | .continueStmt => true
  | _ => false

/-- Is the last statement of the list a `continue` statement?  (`False`
for an empty list, matching the truthiness test on `rewritten_loop_body.stmts`
in `_parse_for_loop_stmt`.) -/
def StmtList.lastIsContinue : StmtList → Bool
  | .nil => false
  | .cons s .nil => s.isContinue
  | .cons _ (.cons t ts) => StmtList.lastIsContinue (.cons t ts)

/-! ## Runtime environment (src/runtime/interpreter.py, `RuntimeEnv`)

A Python `Var` is a mutable cell shared by every environment that holds a
reference to it; `RuntimeEnv.copy` copies the three stacks but not the
`Var` objects.  The embedding therefore keeps the cells in a global store
(`St.cells`) and lets the binding stack hold cell indices: copying an
environment is the identity on `EnvData` (stacks are immutable values)
while the cells remain shared through the store. -/

structure EnvData where
  stack : List (String × Nat)
  offsets : List Nat
  declSets : List (List String)
deriving DecidableEq, Repr

/-- Runtime values.  `vclosure` is the `compiled` callable built by
`Interpreter._compile_fn`: parameter names, body block, and the captured
environment (`captured_env = env.copy()`).  `vprototype` is the
process-wide `fn_prototype` marker; `vbuiltin` a host built-in named in
`BUILT_IN_FNS`; `verr` the exception object bound by a catch clause. -/
inductive Value where
  | vnull
  | vbool (b : Bool)
  | vint (n : Int)
  | vstr (s : String)
  | vclosure (fnName : String) (params : List String) (body : StmtList) (cenv : EnvData)
  | vbuiltin (name : String)
  | vprototype
  | verr (msg : String)
deriving DecidableEq, Repr

/-- The store of `Var` cells plus the output written by `print`. -/
structure St where
  cells : List Value
  output : List String
deriving DecidableEq, Repr

/-- A fresh `RuntimeEnv()`: empty stacks, one empty declared-name set. -/
def initialEnv : EnvData := ⟨[], [], [[]]⟩

/-- `RuntimeEnv.enter_scope` (entry half): record the current stack length
and push an empty declared-name set. -/
def enterScope (env : EnvData) : EnvData :=
  ⟨env.stack, env.offsets ++ [env.stack.length], env.declSets ++ [[]]⟩

/-- `RuntimeEnv.enter_scope` (the `finally` half): truncate the binding
stack to the recorded offset and discard the top declared-name set. -/
def exitScope (env : EnvData) : EnvData :=
  ⟨env.stack.take (env.offsets.getLastD 0), env.offsets.dropLast, env.declSets.dropLast⟩

/-- `RuntimeEnv.lookup`: first matching binding from the top of the stack. -/
def lookupCell (stack : List (String × Nat)) (name : String) : Option Nat :=
  (stack.reverse.find? (fun p => p.1 = name)).map (fun p => p.2)

/-- Look a name up through the store. -/
def lookupVal (stack : List (String × Nat)) (st : St) (name : String) : Option Value :=
  (lookupCell stack name).map (fun i => st.cells.getD i .vnull)

/-- `RuntimeEnv.has`. -/
def envHasName (stack : List (String × Nat)) (name : String) : Bool :=
  stack.any (fun p => p.1 = name)

/-- The cell updates of `RuntimeEnv.assign`: set `var.val = val` on every
binding whose name matches. -/
def assignCells (stack : List (String × Nat)) (name : String) (v : Value)
    (cells : List Value) : List Value :=
  stack.foldl (fun cs p => if p.1 = name then cs.set p.2 v else cs) cells

/-- `RuntimeEnv.assign`: update every matching binding; `none` models the
"cannot assign to undeclared variable" error. -/
def assignVar (stack : List (String × Nat)) (name : String) (v : Value) (st : St) :
    Option St :=
  if envHasName stack name then
    some { st with cells := assignCells stack name v st.cells }
  else none

/-- `RuntimeEnv.push`: allocate a fresh cell and push a binding to it. -/
def pushVar (env : EnvData) (st : St) (name : String) (v : Value) : EnvData × St :=
  (⟨env.stack ++ [(name, st.cells.length)], env.offsets, env.declSets⟩,
   { st with cells := st.cells ++ [v] })

/-- `RuntimeEnv.declare`: error (`none`) when the name is already in the
current scope's declared set, else record it in that set and push a
binding.  (`none` also models the `IndexError` of `[-1]` on an empty
declared-set stack, which balanced scope entry/exit never produces.) -/
def declareVar (env : EnvData) (st : St) (name : String) (v : Value) :
    Option (EnvData × St) :=
  match env.declSets.getLast? with
  | none => none
  | some cur =>
    if name ∈ cur then none
    else
      some (pushVar { env with declSets := env.declSets.dropLast ++ [cur ++ [name]] }
        st name v)

/-! ## Built-in functions (src/runtime/builtins.py)

The embedded catalogue is the fragment the claims exercise: `print`, the
comparison and integer arithmetic operators, and the logical operators.
Python booleans are integers (`True == 1`), which `asNum` reflects.
A built-in raising maps to an error result, which the call site wraps. -/

/-- Python truthiness of the embedded values. -/
def truthy : Value → Bool
  | .vnull => false
  | .vbool b => b
  | .vint n => n != 0
  | .vstr s => s ≠ ""
  | _ => true

/-- `str()` of a value, as `print` renders it. -/
def pyStr : Value → String
  | .vnull => "None"
  | .vbool b => if b then "True" else "False"
  | .vint n => toString n
  | .vstr s => s
  | .vclosure fnName _ _ _ => "<function " ++ fnName ++ ">"
  | .vbuiltin n => "<built-in function " ++ n ++ ">"
  | .vprototype => "<object>"
  | .verr m => m

/-- Numeric view: Python `bool` is a subtype of `int`. -/
def asNum : Value → Option Int
  | .vint n => some n
  | .vbool b => some (if b then 1 else 0)
  | _ => none

/-- `operator.add` on the embedded fragment. -/
def pyAdd (a b : Value) : Except String Value :=
  match asNum a, asNum b with
  | some x, some y => .ok (.vint (x + y))
  | _, _ =>
    match a, b with
    | .vstr s1, .vstr s2 => .ok (.vstr (s1 ++ s2))
    | _, _ => .error "TypeError: unsupported operand type(s) for +"

/-- `operator.sub` on the embedded fragment. -/
def pySub (a b : Value) : Except String Value :=
  match asNum a, asNum b with
  | some x, some y => .ok (.vint (x - y))
  | _, _ => .error "TypeError: unsupported operand type(s) for -"

/-- `operator.mul` on the embedded (integer) fragment. -/
def pyMul (a b : Value) : Except String Value :=
  match asNum a, asNum b with
  | some x, some y => .ok (.vint (x * y))
  | _, _ => .error "TypeError: unsupported operand type(s) for *"

/-- `operator.mod` on the embedded fragment; Python `%` is floored
(remainder takes the divisor's sign), which is `Int.fmod`. -/
def pyMod (a b : Value) : Except String Value :=
  match asNum a, asNum b with
  | some x, some y =>
    if y = 0 then .error "ZeroDivisionError: integer modulo by zero"
    else .ok (.vint (Int.fmod x y))
  | _, _ => .error "TypeError: unsupported operand type(s) for %"

/-- `operator.lt` on the embedded fragment. -/
def pyLt (a b : Value) : Except String Value :=
  match asNum a, asNum b with
  | some x, some y => .ok (.vbool (x < y))
  | _, _ =>
    match a, b with
    | .vstr s1, .vstr s2 => .ok (.vbool (s1 < s2))
    | _, _ => .error "TypeError: comparison not supported"

/-- `operator.le` on the embedded fragment. -/
def pyLe (a b : Value) : Except String Value :=
  match asNum a, asNum b with
  | some x, some y => .ok (.vbool (x ≤ y))
  | _, _ =>
    match a, b with
    | .vstr s1, .vstr s2 => .ok (.vbool (s1 ≤ s2))
    | _, _ => .error "TypeError: comparison not supported"

/-- Python `==` on the embedded fragment (callables compare by identity,
which no claim exercises; they are treated as unequal). -/
def pyEqBool (a b : Value) : Bool :=
  match asNum a, asNum b with
  | some x, some y => x == y
  | _, _ =>
    match a, b with
    | .vstr s1, .vstr s2 => s1 == s2
    | .vnull, .vnull => true
    | _, _ => false

/-- `_logical_or` (builtins.py lines 7-11): if the first argument is
truthy return it; otherwise `next(filter(bool, args), args[-1])` — note
that the default `args[-1]` is evaluated before `next`, so an empty rest
raises `IndexError`. -/
def logicalOr (arg0 : Value) (args : List Value) : Except String Value :=
  if truthy arg0 then .ok arg0
  else
    match args.getLast? with
    | none => .error "IndexError: tuple index out of range"
    | some lastArg => .ok ((args.find? (fun v => truthy v)).getD lastArg)

/-- `_logical_and` (builtins.py lines 14-18): if the first argument is
falsy return it; otherwise the first falsy of the rest, with the eagerly
evaluated default `args[-1]` raising `IndexError` on an empty rest. -/
def logicalAnd (arg0 : Value) (args : List Value) : Except String Value :=
  if truthy arg0 then
    match args.getLast? with
    | none => .error "IndexError: tuple index out of range"
    | some lastArg => .ok ((args.find? (fun v => !truthy v)).getD lastArg)
  else .ok arg0

/-- Result of an expression evaluation. -/
inductive ERes where
  | ok (v : Value)
  | err (msg : String)
  | ierr (msg : String)
  | timeout
deriving DecidableEq, Repr

/-- Apply a binary operator built-in. -/
def applyBinOp (opName : String) (f : Value → Value → Except String Value)
    (args : List Value) (st : St) : St × ERes :=
  match args with
  | [a, b] =>
    match f a b with
    | .ok v => (st, .ok v)
    | .error m => (st, .err m)
  | _ => (st, .err ("TypeError: " ++ opName ++ " takes exactly 2 arguments"))

/-- Dispatch a built-in call (`BUILT_IN_FNS`).  Exceptions raised by a
built-in become error results, wrapped into runtime errors at the call
site. -/
def applyBuiltin (name : String) (args : List Value) (st : St) : St × ERes :=
  if name = "print" then
    ({ st with output := st.output ++ [String.intercalate " " (args.map pyStr)] },
     .ok .vnull)
  else if name = "lt" then applyBinOp "lt" pyLt args st
  else if name = "le" then applyBinOp "le" pyLe args st
  else if name = "gt" then applyBinOp "gt" (fun a b => pyLt b a) args st
  else if name = "ge" then applyBinOp "ge" (fun a b => pyLe b a) args st
  else if name = "eq" then applyBinOp "eq" (fun a b => .ok (.vbool (pyEqBool a b))) args st
  else if name = "ne" then applyBinOp "ne" (fun a b => .ok (.vbool (!pyEqBool a b))) args st
  else if name = "add" then applyBinOp "add" pyAdd args st
  else if name = "sub" then applyBinOp "sub" pySub args st
  else if name = "mul" then applyBinOp "mul" pyMul args st
  else if name = "mod" then applyBinOp "mod" pyMod args st
  else if name = "not" then
    match args with
    | [a] => (st, .ok (.vbool (¬truthy a)))
    | _ => (st, .err "TypeError: not takes exactly 1 argument")
  else if name = "or" then
    match args with
    | [] => (st, .err "TypeError: or missing 1 required positional argument")
    | a :: rest =>
      match logicalOr a rest with
      | .ok v => (st, .ok v)
      | .error m => (st, .err m)
  else if name = "and" then
    match args with
    | [] => (st, .err "TypeError: and missing 1 required positional argument")
    | a :: rest =>
      match logicalAnd a rest with
      | .ok v => (st, .ok v)
      | .error m => (st, .err m)
  else (st, .err ("NameError: unknown built-in " ++ name))

/-! ## The evaluator (src/runtime/interpreter.py, `Interpreter`)

The evaluator is embedded as a family of interpreters indexed by fuel:
`mkInterp (f+1)` executes one "level", delegating to `mkInterp f` (the
`dp` argument of the `…Go` functions) for while-loop iterations, for-each
iterations, and function calls; `mkInterp 0` times out.  Fuel is an
artifact of the embedding — Python recursion has no such bound — and a
`timeout` result carries no information about the program.

Expression evaluation (`_evaluate_expr`) reads and writes only the binding
stack and the store, never the scope stacks, so `evalExprGo` takes the
stack alone. -/

/-- Result of a statement execution: `normal`, the `Break`/`Continue`/
`Return` control transfers (subclasses of `Sentinel`), a catchable error
(`RuntimeError` or any other `Exception`), an `InternalError`, or fuel
exhaustion. -/
inductive SRes where
  | normal
  | brk
  | cont
  | ret (v : Value)
  | err (msg : String)
  | ierr (msg : String)
  | timeout
deriving DecidableEq, Repr

/-- State, environment, and result after executing a statement. -/
structure SOut where
  st : St
  env : EnvData
  res : SRes
deriving DecidableEq, Repr

/-- Result of evaluating a list of argument expressions. -/
inductive ArgsRes where
  | ok (vs : List Value)
  | err (msg : String)
  | ierr (msg : String)
  | timeout
deriving DecidableEq, Repr

/-- Map a non-`ok` expression result onto a statement result. -/
def eresToSRes : ERes → SRes
  | .ok _ => .normal
  | .err m => .err m
  | .ierr m => .ierr m
  | .timeout => .timeout

/-- The interface used for fuel-consuming recursion: executing statements,
statement lists, the per-item loop of a for-each statement, and calling a
user-defined function (`compiled`). -/
structure Interp where
  stmt : Stmt → EnvData → St → SOut
  stmts : StmtList → EnvData → St → SOut
  feach : List Value → String → Stmt → EnvData → St → SOut
  call : String → List String → StmtList → EnvData → List Value → St → St × ERes

/-- The iterables of the embedded fragment: strings iterate by character
(each a one-character string), matching Python.  Other embedded values are
not iterable. -/
def iterOf : Value → Option (List Value)
  | .vstr s => some (s.data.map (fun c => .vstr (String.mk [c])))
  | _ => none

/-- `type(v).__name__` for the embedded values. -/
def typeName : Value → String
  | .vnull => "NoneType"
  | .vbool _ => "bool"
  | .vint _ => "int"
  | .vstr _ => "str"
  | .vclosure _ _ _ _ => "function"
  | .vbuiltin _ => "builtin_function_or_method"
  | .vprototype => "object"
  | .verr _ => "RuntimeError"

mutual
/-- `Interpreter._evaluate_expr` on the embedded expression fragment. -/
def evalExprGo (dp : Interp) (stack : List (String × Nat)) :
    Expr → St → St × ERes
  | .boolLit b, st => (st, .ok (.vbool b))
  | .intLit n, st => (st, .ok (.vint n))
  | .strLit s, st => (st, .ok (.vstr s))
  | .nullLit, st => (st, .ok .vnull)
  | .access n, st =>
    match lookupVal stack st n with
    | some v => (st, .ok v)
    | none => (st, .err ("undefined variable: " ++ n))
  | .assignExpr n e, st =>
    -- evaluate_assignment_expr: evaluate the RHS, then assign, then
    -- produce the assigned value
    match evalExprGo dp stack e st with
    | (st1, .ok v) =>
      match assignVar stack n v st1 with
      | some st2 => (st2, .ok v)
      | none => (st1, .err ("cannot assign to undeclared variable: " ++ n))
    | r => r
  | .callExpr callee args, st =>
    -- _evaluate_call_expr evaluates the argument list comprehension
    -- before the callee (interpreter.py lines 330-332)
    match evalArgsGo dp stack args st with
    | (st1, .ok vs) =>
      match evalExprGo dp stack callee st1 with
      | (st2, .ok f) =>
        match f with
        | .vprototype => (st2, .err "cannot call fn before it is defined")
        | .vclosure fnName ps body cenv =>
          -- any exception out of `fn(*args)` is wrapped in a RuntimeError
          match dp.call fnName ps body cenv vs st2 with
          | (st3, .ok v) => (st3, .ok v)
          | (st3, .err m) => (st3, .err ("error calling: " ++ m))
          | (st3, .ierr m) => (st3, .err ("error calling: " ++ m))
          | (st3, .timeout) => (st3, .timeout)
        | .vbuiltin bname =>
          match applyBuiltin bname vs st2 with
          | (st3, .ok v) => (st3, .ok v)
          | (st3, .err m) => (st3, .err ("error calling: " ++ m))
          | (st3, .ierr m) => (st3, .err ("error calling: " ++ m))
          | (st3, .timeout) => (st3, .timeout)
        | _ => (st2, .err "cannot call non-callable value")
      | r => r
    | (st1, .err m) => (st1, .err m)
    | (st1, .ierr m) => (st1, .ierr m)
    | (st1, .timeout) => (st1, .timeout)

/-- Left-to-right evaluation of the arguments of a call. -/
def evalArgsGo (dp : Interp) (stack : List (String × Nat)) :
    ExprList → St → St × ArgsRes
  | .nil, st => (st, .ok [])
  | .cons e es, st =>
    match evalExprGo dp stack e st with
    | (st1, .ok v) =>
      match evalArgsGo dp stack es st1 with
      | (st2, .ok vs) => (st2, .ok (v :: vs))
      | r => r
    | (st1, .err m) => (st1, .err m)
    | (st1, .ierr m) => (st1, .ierr m)
    | (st1, .timeout) => (st1, .timeout)
end

mutual
/-- `Interpreter._visit_stmt`: dispatch one statement. -/
def execStmtGo (dp : Interp) : Stmt → EnvData → St → SOut
  | .blockStmt ss, env, st =>
    -- with env.enter_scope(): _visit_block_stmt(stmt); the finally clause
    -- of enter_scope runs on every exit path
    let r := execStmtsGo dp ss (enterScope env) st
    ⟨r.st, exitScope r.env, r.res⟩
  | .varDecl n e, env, st =>
    match evalExprGo dp env.stack e st with
    | (st1, .ok v) =>
      match declareVar env st1 n v with
      | some (env2, st2) => ⟨st2, env2, .normal⟩
      | none => ⟨st1, env, .err ("cannot redeclare variable in same scope: " ++ n)⟩
    | (st1, r) => ⟨st1, env, eresToSRes r⟩
  | .ifStmt c tB, env, st =>
    match evalExprGo dp env.stack c st with
    | (st1, .ok v) =>
      let r :=
        if truthy v then visitBlockGo dp tB (enterScope env) st1
        else ⟨st1, enterScope env, .normal⟩
      ⟨r.st, exitScope r.env, r.res⟩
    | (st1, r) => ⟨st1, env, eresToSRes r⟩
  | .ifElseStmt c tB eB, env, st =>
    match evalExprGo dp env.stack c st with
    | (st1, .ok v) =>
      let r :=
        if truthy v then visitBlockGo dp tB (enterScope env) st1
        else visitBlockGo dp eB (enterScope env) st1
      ⟨r.st, exitScope r.env, r.res⟩
    | (st1, r) => ⟨st1, env, eresToSRes r⟩
  | .whileLoop c body, env, st =>
    match evalExprGo dp env.stack c st with
    | (st1, .ok v) =>
      if truthy v then
        let r := visitBlockGo dp body (enterScope env) st1
        let env2 := exitScope r.env
        match r.res with
        | .brk => ⟨r.st, env2, .normal⟩
        | .normal => dp.stmt (.whileLoop c body) env2 r.st
        | .cont => dp.stmt (.whileLoop c body) env2 r.st
        | other => ⟨r.st, env2, other⟩
      else ⟨st1, env, .normal⟩
    | (st1, r) => ⟨st1, env, eresToSRes r⟩
  | .forEach n e body, env, st =>
    match evalExprGo dp env.stack e st with
    | (st1, .ok v) =>
      match iterOf v with
      | some items => dp.feach items n body env st1
      | none => ⟨st1, env, .err ("cannot iterate over value of type " ++ typeName v)⟩
    | (st1, r) => ⟨st1, env, eresToSRes r⟩
  | .breakStmt, env, st => ⟨st, env, .brk⟩
  | .continueStmt, env, st => ⟨st, env, .cont⟩
  | .returnStmt none, env, st => ⟨st, env, .ret .vnull⟩
  | .returnStmt (some e), env, st =>
    match evalExprGo dp env.stack e st with
    | (st1, .ok v) => ⟨st1, env, .ret v⟩
    | (st1, r) => ⟨st1, env, eresToSRes r⟩
  | .tryStmt tB cB errN, env, st =>
    -- _visit_try_stmt: InternalError and Sentinel propagate; every other
    -- exception runs the catch block with the error optionally bound
    let r := visitBlockGo dp tB (enterScope env) st
    let env2 := exitScope r.env
    match r.res with
    | .err m =>
      let env3 := enterScope env2
      let e4 :=
        match errN with
        | some nm => pushVar env3 r.st nm (.verr m)
        | none => (env3, r.st)
      let rc := visitBlockGo dp cB e4.1 e4.2
      ⟨rc.st, exitScope rc.env, rc.res⟩
    | other => ⟨r.st, env2, other⟩
  | .tryStmtSwapped tB _ _, env, st =>
    -- _visit_try_stmt on the swapped node: the try block runs normally and
    -- InternalError/Sentinel re-raise as usual; on a caught error, the
    -- err_var_binding_name field holds the rewritten catch-block *node* -
    -- always truthy - so env.push runs with that node as the Var name (no
    -- identifier ever equals a node, so the binding is unreachable; the
    -- placeholder string below likewise matches no identifier, and the
    -- binding dies at the scope exit without being read); then
    -- _visit_block_stmt reads .stmts off the string-or-None in the
    -- catch_block field and raises AttributeError, a catchable host
    -- exception, while the enter_scope finally clauses still unwind
    let r := visitBlockGo dp tB (enterScope env) st
    let env2 := exitScope r.env
    match r.res with
    | .err m =>
      let e4 := pushVar (enterScope env2) r.st "catch block node" (.verr m)
      ⟨e4.2, exitScope e4.1, .err "AttributeError: no attribute stmts"⟩
    | other => ⟨r.st, env2, other⟩
  | .exprStmt e, env, st =>
    match evalExprGo dp env.stack e st with
    | (st1, .ok _) => ⟨st1, env, .normal⟩
    | (st1, r) => ⟨st1, env, eresToSRes r⟩

/-- `Interpreter._visit_block_stmt`: statements in order, stopping at the
first non-normal result (a raised exception). -/
def execStmtsGo (dp : Interp) : StmtList → EnvData → St → SOut
  | .nil, env, st => ⟨st, env, .normal⟩
  | .cons s ss, env, st =>
    let r := execStmtGo dp s env st
    match r.res with
    | .normal => execStmtsGo dp ss r.env r.st
    | _ => r

/-- `_visit_block_stmt` is called on nodes assumed to be blocks; on any
other node Python raises an `AttributeError` reading `.stmts`, a catchable
host exception. -/
def visitBlockGo (dp : Interp) : Stmt → EnvData → St → SOut
  | .blockStmt ss, env, st => execStmtsGo dp ss env st
  | _, env, st => ⟨st, env, .err "AttributeError: no attribute stmts"⟩
end

/-- The per-item loop of `_visit_iterator_based_for_loop_stmt`: per item,
enter a scope, `push` the iteration variable (not `declare` — it is not
added to the declared-name set), run the body, exit the scope; `Break`
stops, `Continue` moves on. -/
def feachGo (dp : Interp) (items : List Value) (n : String) (body : Stmt)
    (env : EnvData) (st : St) : SOut :=
  match items with
  | [] => ⟨st, env, .normal⟩
  | item :: rest =>
    let e1 := pushVar (enterScope env) st n item
    let r := visitBlockGo dp body e1.1 e1.2
    let env2 := exitScope r.env
    match r.res with
    | .brk => ⟨r.st, env2, .normal⟩
    | .normal => dp.feach rest n body env2 r.st
    | .cont => dp.feach rest n body env2 r.st
    | other => ⟨r.st, env2, other⟩

/-- Declare the parameters of a call one by one (`call_env.declare` in
`compiled`); reports the first parameter hitting the redeclaration error. -/
def declareParams : EnvData → St → List String → List Value →
    EnvData × St × Option String
  | env, st, [], _ => (env, st, none)
  | env, st, _ :: _, [] => (env, st, none)
  | env, st, p :: ps, v :: vs =>
    match declareVar env st p v with
    | some (env2, st2) => declareParams env2 st2 ps vs
    | none => (env, st, some p)

/-- The `compiled` closure of `_compile_fn`: copy the captured environment
(cell ids stay shared), check arity, enter a scope, declare the
parameters, run the body, and catch `Return`.  A body that exits normally
returns `None`.  `Break`/`Continue` escaping the body leave `compiled` as
exceptions (message "sentinel") to be wrapped by the call site. -/
def applyClosureGo (dp : Interp) (fnName : String) (params : List String)
    (body : StmtList) (cenv : EnvData) (args : List Value) (st : St) :
    St × ERes :=
  if params.length ≠ args.length then
    (st, .err ("call " ++ fnName ++ ": want " ++ toString params.length ++
      ", got " ++ toString args.length ++ " args"))
  else
    match declareParams (enterScope cenv) st params args with
    | (_, st1, some p) =>
      (st1, .err ("cannot redeclare variable in same scope: " ++ p))
    | (env1, st1, none) =>
      let r := execStmtsGo dp body env1 st1
      match r.res with
      | .ret v => (r.st, .ok v)
      | .normal => (r.st, .ok .vnull)
      | .brk => (r.st, .err "sentinel")
      | .cont => (r.st, .err "sentinel")
      | .err m => (r.st, .err m)
      | .ierr m => (r.st, .ierr m)
      | .timeout => (r.st, .timeout)

/-- The fuel-zero interpreter: everything times out. -/
def bottomInterp : Interp :=
  ⟨fun _ env st => ⟨st, env, .timeout⟩,
   fun _ env st => ⟨st, env, .timeout⟩,
   fun _ _ _ env st => ⟨st, env, .timeout⟩,
   fun _ _ _ _ _ st => (st, .timeout)⟩

/-- The interpreter with fuel `f`. -/
def mkInterp : Nat → Interp
  | 0 => bottomInterp
  | f + 1 =>
    let dp := mkInterp f
    ⟨execStmtGo dp, execStmtsGo dp, feachGo dp, applyClosureGo dp⟩

/-! ## Top-level evaluation (`Interpreter.evaluate`) -/

/-- A top-level item: a function definition or a statement. -/
inductive TopItem where
  | fnDef (name : String) (params : List String) (body : StmtList)
  | stmt (s : Stmt)
deriving DecidableEq, Repr

/-- First pass of `evaluate`: declare every top-level function whose name
is not yet bound with the `fn_prototype` sentinel, so functions can refer
to one another regardless of textual order. -/
def declarePass : List TopItem → EnvData → St → EnvData × St × Option String
  | [], env, st => (env, st, none)
  | .stmt _ :: rest, env, st => declarePass rest env st
  | .fnDef n _ _ :: rest, env, st =>
    if envHasName env.stack n then declarePass rest env st
    else
      match declareVar env st n .vprototype with
      | some (env2, st2) => declarePass rest env2 st2
      | none => (env, st, some ("cannot redeclare variable in same scope: " ++ n))

/-- Second pass of `evaluate`: in order, build each function's closure
value and assign it over the sentinel, or execute the statement. -/
def runItems (fuel : Nat) : List TopItem → EnvData → St → SOut
  | [], env, st => ⟨st, env, .normal⟩
  | .fnDef n ps body :: rest, env, st =>
    -- _visit_fn_definition: compiled = _compile_fn(decl, env) captures
    -- env.copy(); then env.assign(name, compiled)
    match assignVar env.stack n (.vclosure n ps body env) st with
    | some st2 => runItems fuel rest env st2
    | none => ⟨st, env, .err ("cannot assign to undeclared variable: " ++ n)⟩
  | .stmt s :: rest, env, st =>
    let r := (mkInterp fuel).stmt s env st
    match r.res with
    | .normal => runItems fuel rest r.env r.st
    | _ => r

/-- Push each built-in as a base binding (the seeding loop of `evaluate`). -/
def seedBuiltins : List String → EnvData → St → EnvData × St
  | [], env, st => (env, st)
  | n :: ns, env, st =>
    let e1 := pushVar env st n (.vbuiltin n)
    seedBuiltins ns e1.1 e1.2

/-- The embedded subset of the `BUILT_IN_FNS` catalogue (in its insertion
order). -/
def defaultBuiltins : List String :=
  ["print", "lt", "le", "eq", "ne", "ge", "gt", "add", "sub", "mul", "mod",
   "not", "or", "and"]

/-- Final outcome of a program run. -/
inductive RunRes where
  | ok
  | err (msg : String)
  | ierr (msg : String)
  | timeout
deriving DecidableEq, Repr

/-- `Interpreter.evaluate`: seed the built-ins, forward-declare functions,
then run the top-level items; a `Sentinel` reaching the top level becomes
`InternalError("interpreter: sentinel escaped")`. -/
def evaluate (items : List TopItem) (builtins : List String) (fuel : Nat) :
    St × RunRes :=
  let e0 := seedBuiltins builtins initialEnv ⟨[], []⟩
  match declarePass items e0.1 e0.2 with
  | (_, st1, some m) => (st1, .err m)
  | (env1, st1, none) =>
    let r := runItems fuel items env1 st1
    match r.res with
    | .normal => (r.st, .ok)
    | .brk => (r.st, .ierr "interpreter: sentinel escaped")
    | .cont => (r.st, .ierr "interpreter: sentinel escaped")
    | .ret _ => (r.st, .ierr "interpreter: sentinel escaped")
    | .err m => (r.st, .err m)
    | .ierr m => (r.st, .ierr m)
    | .timeout => (r.st, .timeout)

/-- Run a program with the default built-ins and report its output. -/
def runProg (items : List TopItem) (fuel : Nat) : List String × RunRes :=
  let r := evaluate items defaultBuiltins fuel
  (r.1.output, r.2)

/-! ## C7: the `or` and `and` built-ins -/

/-- Specification-side: the first element of `v :: vs` satisfying `p`,
else the last element. -/
def firstSuchElseLast (p : Value → Bool) : Value → List Value → Value
  | v, [] => v
  | v, w :: ws => if p v then v else firstSuchElseLast p w ws

theorem findD_getLastD (p : Value → Bool) (d : Value) :
    ∀ (w : Value) (ws : List Value),
      ((w :: ws).find? p).getD ((w :: ws).getLastD d) = firstSuchElseLast p w ws := by
  intro w ws
  induction ws generalizing w d with
  | nil =>
    by_cases h : p w <;> simp [List.find?, firstSuchElseLast, h]
  | cons u us ih =>
    by_cases h : p w
    · simp [List.find?, firstSuchElseLast, h]
    · rw [firstSuchElseLast, if_neg h]
      rw [List.getLastD_cons]
      rw [show ((w :: u :: us).find? p) = ((u :: us).find? p) from by
        simp [List.find?, h]]
      exact ih w u

/-- C7 counterexample: called with a single falsy argument, `or` raises
`IndexError` (the eagerly evaluated default `args[-1]` indexes an empty
tuple) instead of returning its argument; symmetrically `and` with a
single truthy argument. -/
theorem logicalOr_single_arg_raises :
    logicalOr (.vint 0) [] = .error "IndexError: tuple index out of range" ∧
      logicalAnd (.vint 1) [] = .error "IndexError: tuple index out of range" := by
  constructor <;> rfl

/-- C7 amended: with two or more arguments, `or` returns the first truthy
argument, else the last, and `and` the first falsy argument, else the
last.  (With exactly one argument the claim holds only when `or`'s
argument is truthy, respectively `and`'s falsy; otherwise the built-in
raises, per the counterexample.) -/
theorem logicalOr_and_spec (a : Value) (rest : List Value) (h : rest ≠ []) :
    logicalOr a rest = .ok (firstSuchElseLast truthy a rest) ∧
      logicalAnd a rest = .ok (firstSuchElseLast (fun v => !truthy v) a rest) := by
  match rest, h with
  | w :: ws, _ =>
    have hL : (w :: ws).getLast? = some ((w :: ws).getLastD (.vint 0)) := by
      rw [List.getLastD_eq_getLast?]
      cases hq : (w :: ws).getLast? with
      | none => simp at hq
      | some z => rfl
    constructor
    · rw [logicalOr]
      by_cases ht : truthy a
      · rw [if_pos ht]
        simp [firstSuchElseLast, ht]
      · rw [if_neg ht, hL]
        show Except.ok (((w :: ws).find? (fun v => truthy v)).getD
          ((w :: ws).getLastD (.vint 0))) = _
        rw [findD_getLastD]
        simp [firstSuchElseLast, ht]
    · rw [logicalAnd]
      by_cases ht : truthy a
      · rw [if_pos ht, hL]
        show Except.ok (((w :: ws).find? (fun v => !truthy v)).getD
          ((w :: ws).getLastD (.vint 0))) = _
        rw [findD_getLastD]
        simp [firstSuchElseLast, ht]
      · rw [if_neg ht]
        simp [firstSuchElseLast, ht]

/-- C7 witness: `or(0, "", "hello", 7)` is `"hello"` and
`and(1, "x", 0, 7)` is `0` (end-to-end scenario 5 of the spec). -/
theorem logicalOr_and_spec_witness :
    ([(Value.vstr ""), .vstr "hello", .vint 7] ≠ ([] : List Value)) ∧
      logicalOr (.vint 0) [.vstr "", .vstr "hello", .vint 7] = .ok (.vstr "hello") ∧
      logicalAnd (.vint 1) [.vstr "x", .vint 0, .vint 7] = .ok (.vint 0) := by
  refine ⟨by decide, ?_, ?_⟩
  · rw [(logicalOr_and_spec (.vint 0) [.vstr "", .vstr "hello", .vint 7] (by decide)).1]
    rfl
  · rw [(logicalOr_and_spec (.vint 1) [.vstr "x", .vint 0, .vint 7] (by decide)).2]
    rfl

/-! ## C5: assignment updates every matching binding -/

theorem assignCells_cons (q : String × Nat) (rest : List (String × Nat))
    (n : String) (v : Value) (cells : List Value) :
    assignCells (q :: rest) n v cells =
      assignCells rest n v (if q.1 = n then cells.set q.2 v else cells) := by
  by_cases h : q.1 = n <;> simp [assignCells, h]

theorem assignCells_length (n : String) (v : Value) :
    ∀ (stack : List (String × Nat)) (cells : List Value),
      (assignCells stack n v cells).length = cells.length := by
  intro stack
  induction stack with
  | nil => intro cells; rfl
  | cons q rest ih =>
    intro cells
    rw [assignCells_cons]
    by_cases h : q.1 = n
    · rw [if_pos h, ih]
      simp
    · rw [if_neg h, ih]

theorem assignCells_getD_cases (n : String) (v : Value) (j : Nat) (d : Value) :
    ∀ (stack : List (String × Nat)) (cells : List Value),
      (assignCells stack n v cells).getD j d = v ∨
        (assignCells stack n v cells).getD j d = cells.getD j d := by
  intro stack
  induction stack with
  | nil => intro cells; right; rfl
  | cons q rest ih =>
    intro cells
    rw [assignCells_cons]
    by_cases h : q.1 = n
    · rw [if_pos h]
      rcases ih (cells.set q.2 v) with hv | he
      · left; exact hv
      · by_cases hj : q.2 = j
        · subst hj
          by_cases hlt : q.2 < cells.length
          · left
            rw [he]
            simp [List.getD, List.getElem?_set, hlt]
          · right
            rw [he]
            simp [List.getD, List.getElem?_set, hlt,
              List.getElem?_eq_none (Nat.le_of_not_lt hlt)]
        · right
          rw [he]
          simp [List.getD, List.getElem?_set, hj]
    · rw [if_neg h]
      exact ih cells

theorem assignCells_matching (n : String) (v : Value) (d : Value) :
    ∀ (stack : List (String × Nat)) (cells : List Value) (p : String × Nat),
      p ∈ stack → p.1 = n → p.2 < cells.length →
      (assignCells stack n v cells).getD p.2 d = v := by
  intro stack
  induction stack with
  | nil => intro cells p hp; exact absurd hp (List.not_mem_nil p)
  | cons q rest ih =>
    intro cells p hp hn hlt
    rw [assignCells_cons]
    rcases List.mem_cons.mp hp with hq | hrest
    · subst hq
      rw [if_pos hn]
      rcases assignCells_getD_cases n v p.2 d rest (cells.set p.2 v) with hv | he
      · exact hv
      · rw [he]
        simp [List.getD, List.getElem?_set, hlt]
    · by_cases h : q.1 = n
      · rw [if_pos h]
        exact ih (cells.set q.2 v) p hrest hn (by simpa using hlt)
      · rw [if_neg h]
        exact ih cells p hrest hn hlt

theorem assignCells_nonmatching (n : String) (v : Value) (j : Nat) (d : Value) :
    ∀ (stack : List (String × Nat)) (cells : List Value),
      (∀ p ∈ stack, p.1 = n → p.2 ≠ j) →
      (assignCells stack n v cells).getD j d = cells.getD j d := by
  intro stack
  induction stack with
  | nil => intro cells _; rfl
  | cons q rest ih =>
    intro cells hnot
    rw [assignCells_cons]
    by_cases h : q.1 = n
    · rw [if_pos h]
      rw [ih (cells.set q.2 v) (fun p hp => hnot p (List.mem_cons_of_mem q hp))]
      have hj : q.2 ≠ j := hnot q (List.mem_cons_self q rest) h
      simp [List.getD, List.getElem?_set, hj]
    · rw [if_neg h]
      exact ih cells (fun p hp => hnot p (List.mem_cons_of_mem q hp))

/-- C5: evaluating `name = e` first evaluates `e`; if no binding named
`name` exists the result is the "cannot assign to undeclared variable"
runtime error; otherwise *every* matching binding in the stack — outer
scopes included — now reads the assigned value, all other cells are
untouched, the output is untouched, and the expression's result is the
assigned value. -/
theorem assignment_expr_spec (dp : Interp) (stack : List (String × Nat))
    (n : String) (e : Expr) (st st1 : St) (v : Value)
    (h : evalExprGo dp stack e st = (st1, .ok v)) :
    (envHasName stack n = false →
      evalExprGo dp stack (.assignExpr n e) st =
        (st1, .err ("cannot assign to undeclared variable: " ++ n))) ∧
    (envHasName stack n = true →
      ∃ st2, evalExprGo dp stack (.assignExpr n e) st = (st2, .ok v) ∧
        st2.output = st1.output ∧
        st2.cells.length = st1.cells.length ∧
        (∀ p ∈ stack, p.1 = n → p.2 < st1.cells.length →
          st2.cells.getD p.2 .vnull = v) ∧
        (∀ j, (∀ p ∈ stack, p.1 = n → p.2 ≠ j) →
          st2.cells.getD j .vnull = st1.cells.getD j .vnull)) := by
  constructor
  · intro hno
    rw [evalExprGo, h]
    simp [assignVar, hno]
  · intro hyes
    refine ⟨{ st1 with cells := assignCells stack n v st1.cells }, ?_, rfl,
      assignCells_length n v stack st1.cells,
      fun p hp hn hlt => assignCells_matching n v .vnull stack st1.cells p hp hn hlt,
      fun j hnot => assignCells_nonmatching n v j .vnull stack st1.cells hnot⟩
    rw [evalExprGo, h]
    simp [assignVar, hyes]

/-- C5 witness: assigning 9 to `x` in a stack binding `x` twice (an outer
and an inner, shadowing binding) plus an unrelated `y` updates both `x`
cells and leaves `y` alone. -/
theorem assignment_expr_spec_witness :
    ∃ st2,
      evalExprGo bottomInterp [("x", 0), ("y", 1), ("x", 2)] (.assignExpr "x" (.intLit 9))
          ⟨[.vint 1, .vint 5, .vint 7], []⟩ = (st2, .ok (.vint 9)) ∧
        st2.output = ([] : List String) ∧
        st2.cells.length = 3 ∧
        (∀ p ∈ [(("x" : String), (0 : Nat)), ("y", 1), ("x", 2)], p.1 = "x" → p.2 < 3 →
          st2.cells.getD p.2 .vnull = .vint 9) ∧
        (∀ j, (∀ p ∈ [(("x" : String), (0 : Nat)), ("y", 1), ("x", 2)], p.1 = "x" → p.2 ≠ j) →
          st2.cells.getD j .vnull = [Value.vint 1, .vint 5, .vint 7].getD j .vnull) :=
  (assignment_expr_spec bottomInterp [("x", 0), ("y", 1), ("x", 2)] "x" (.intLit 9)
    ⟨[.vint 1, .vint 5, .vint 7], []⟩ ⟨[.vint 1, .vint 5, .vint 7], []⟩ (.vint 9) rfl).2 rfl

/-! ## C6: evaluation order at a call site -/

/-- A program whose side effects expose the order in which the callee and
the arguments of a call are evaluated:

```
fn id(x) { return x; }
(or(print("c"), id))(or(print("a"), 0));
```

The callee expression prints `c`; the argument expression prints `a`. -/
def callOrderProg : List TopItem :=
  [.fnDef "id" ["x"] (slist [.returnStmt (some (.access "x"))]),
   .stmt (.exprStmt (.callExpr
     (.callExpr (.access "or")
       (elist [.callExpr (.access "print") (elist [.strLit "c"]), .access "id"]))
     (elist [.callExpr (.access "or")
       (elist [.callExpr (.access "print") (elist [.strLit "a"]), .intLit 0])])))]

/-- C6 counterexample: the program prints `a` before `c` — the argument
list is evaluated before the callee (interpreter.py lines 330-332
evaluate `call.args` in a list comprehension before `call.callee`), not
callee first as claimed. -/
theorem call_args_before_callee :
    runProg callOrderProg 10 = (["a", "c"], .ok) ∧
      (["a", "c"] : List String) ≠ ["c", "a"] := by
  constructor
  · rfl
  · decide

/-- C6 amended: a call evaluates its argument expressions first, in
left-to-right order, and only then the callee expression; the state
threading (`st` → `st1` after the arguments → `st2` after the callee)
exposes the order, and an error while evaluating the arguments
short-circuits the call before the callee is reached. -/
theorem call_order_spec (dp : Interp) (stack : List (String × Nat))
    (callee : Expr) (args : ExprList) (st : St) :
    (∀ st1 m, evalArgsGo dp stack args st = (st1, .err m) →
      evalExprGo dp stack (.callExpr callee args) st = (st1, .err m)) ∧
    (∀ st1 vs st2 m, evalArgsGo dp stack args st = (st1, .ok vs) →
      evalExprGo dp stack callee st1 = (st2, .err m) →
      evalExprGo dp stack (.callExpr callee args) st = (st2, .err m)) ∧
    (∀ st1 vs st2 bname st3 v, evalArgsGo dp stack args st = (st1, .ok vs) →
      evalExprGo dp stack callee st1 = (st2, .ok (.vbuiltin bname)) →
      applyBuiltin bname vs st2 = (st3, .ok v) →
      evalExprGo dp stack (.callExpr callee args) st = (st3, .ok v)) ∧
    (∀ e es st1 v st2 vs, evalExprGo dp stack e st = (st1, .ok v) →
      evalArgsGo dp stack es st1 = (st2, .ok vs) →
      evalArgsGo dp stack (.cons e es) st = (st2, .ok (v :: vs))) := by
  refine ⟨?_, ?_, ?_, ?_⟩
  · intro st1 m h1
    rw [evalExprGo, h1]
  · intro st1 vs st2 m h1 h2
    simp only [evalExprGo, h1, h2]
  · intro st1 vs st2 bname st3 v h1 h2 h3
    simp only [evalExprGo, h1, h2, h3]
  · intro e es st1 v st2 vs h1 h2
    simp only [evalArgsGo, h1, h2]

/-- C6 witness: `f(1, 2)` with `f` bound to the `add` built-in evaluates
the two literal arguments, then the callee, then applies it. -/
theorem call_order_spec_witness :
    evalExprGo bottomInterp [("f", 0)]
        (.callExpr (.access "f") (elist [.intLit 1, .intLit 2]))
        ⟨[.vbuiltin "add"], []⟩ =
      (⟨[.vbuiltin "add"], []⟩, .ok (.vint 3)) :=
  (call_order_spec bottomInterp [("f", 0)] (.access "f")
      (elist [.intLit 1, .intLit 2]) ⟨[.vbuiltin "add"], []⟩).2.2.1
    ⟨[.vbuiltin "add"], []⟩ [.vint 1, .vint 2] ⟨[.vbuiltin "add"], []⟩ "add"
    ⟨[.vbuiltin "add"], []⟩ (.vint 3) rfl rfl rfl

/-! ## C4: try/catch lets control-flow transfers through -/

/-- C4: a `break`, `continue`, or `return` transfer raised in a try block
propagates out of the try/catch unchanged (so `return` in a try returns
from the enclosing function), as does an `InternalError`; a runtime error
instead transfers control to the catch block, executed in a fresh scope
with the error value optionally bound.  In every case the try scope is
unwound (`exitScope`). -/
theorem try_stmt_spec (dp : Interp) (tB cB : Stmt) (errN : Option String)
    (env : EnvData) (st : St) :
    (∀ st' env', visitBlockGo dp tB (enterScope env) st = ⟨st', env', .brk⟩ →
      execStmtGo dp (.tryStmt tB cB errN) env st = ⟨st', exitScope env', .brk⟩) ∧
    (∀ st' env', visitBlockGo dp tB (enterScope env) st = ⟨st', env', .cont⟩ →
      execStmtGo dp (.tryStmt tB cB errN) env st = ⟨st', exitScope env', .cont⟩) ∧
    (∀ st' env' v, visitBlockGo dp tB (enterScope env) st = ⟨st', env', .ret v⟩ →
      execStmtGo dp (.tryStmt tB cB errN) env st = ⟨st', exitScope env', .ret v⟩) ∧
    (∀ st' env' m, visitBlockGo dp tB (enterScope env) st = ⟨st', env', .ierr m⟩ →
      execStmtGo dp (.tryStmt tB cB errN) env st = ⟨st', exitScope env', .ierr m⟩) ∧
    (∀ st' env' m, visitBlockGo dp tB (enterScope env) st = ⟨st', env', .err m⟩ →
      execStmtGo dp (.tryStmt tB cB errN) env st =
        (let env3 := enterScope (exitScope env')
         let e4 :=
           match errN with
           | some nm => pushVar env3 st' nm (.verr m)
           | none => (env3, st')
         let rc := visitBlockGo dp cB e4.1 e4.2
         ⟨rc.st, exitScope rc.env, rc.res⟩)) := by
  refine ⟨?_, ?_, ?_, ?_, ?_⟩ <;> intro st' env'
  · intro h
    rw [execStmtGo, h]
  · intro h
    rw [execStmtGo, h]
  · intro v h
    rw [execStmtGo, h]
  · intro m h
    rw [execStmtGo, h]
  · intro m h
    rw [execStmtGo, h]

/-- C4 witness: `try { return 42; } catch (e) { return -1; }` — the
`Return` transfer is not caught (end-to-end scenario 4 of the spec). -/
theorem try_stmt_spec_witness :
    execStmtGo (mkInterp 3)
        (.tryStmt (.blockStmt (slist [.returnStmt (some (.intLit 42))]))
          (.blockStmt (slist [.returnStmt (some (.intLit (-1)))])) (some "e"))
        initialEnv ⟨[], []⟩ =
      ⟨⟨[], []⟩, exitScope (enterScope initialEnv), .ret (.vint 42)⟩ :=
  (try_stmt_spec (mkInterp 3) (.blockStmt (slist [.returnStmt (some (.intLit 42))]))
      (.blockStmt (slist [.returnStmt (some (.intLit (-1)))])) (some "e")
      initialEnv ⟨[], []⟩).2.2.1 ⟨[], []⟩ (enterScope initialEnv) (.vint 42) rfl

/-! ## C1: closure capture semantics -/

/-- `let x = a; fn get() { return x; } x = b; print(get());`
(end-to-end scenario 2 of the spec, generalized). -/
def closureCaptureProg (a b : Int) : List TopItem :=
  [.stmt (.varDecl "x" (.intLit a)),
   .fnDef "get" [] (slist [.returnStmt (some (.access "x"))]),
   .stmt (.exprStmt (.assignExpr "x" (.intLit b))),
   .stmt (.exprStmt (.callExpr (.access "print") (elist [.callExpr (.access "get") .nil])))]

/-- `let x = a; fn setx() { x = b; return; } setx(); print(x);` -/
def closureWriteProg (a b : Int) : List TopItem :=
  [.stmt (.varDecl "x" (.intLit a)),
   .fnDef "setx" [] (slist [.exprStmt (.assignExpr "x" (.intLit b)), .returnStmt none]),
   .stmt (.exprStmt (.callExpr (.access "setx") .nil)),
   .stmt (.exprStmt (.callExpr (.access "print") (elist [.access "x"])))]

/-- `fn useY() { return y; } let y = a; print(useY());` — `y` is declared
only after the closure is built. -/
def closureNewBindingProg (a : Int) : List TopItem :=
  [.fnDef "useY" [] (slist [.returnStmt (some (.access "y"))]),
   .stmt (.varDecl "y" (.intLit a)),
   .stmt (.exprStmt (.callExpr (.access "print") (elist [.callExpr (.access "useY") .nil])))]

/-- C1 counterexample: the spec's own scenario
`let x = 1; fn get() { return x; } x = 99; print(get());` prints `99`,
not `1`: `RuntimeEnv.copy` copies the stack *list* but the `Var` cells
are shared, so the assignment after the closure's construction is visible
inside the call. -/
theorem closure_capture_counterexample :
    runProg (closureCaptureProg 1 99) 10 = (["99"], .ok) ∧
      (["99"] : List String) ≠ ["1"] := by
  constructor
  · rfl
  · decide

/-- C1 amended: the snapshot fixes the stack *structure* — a binding
added to the defining environment after the closure is built is invisible
inside calls (`closureNewBindingProg` fails with an undefined-variable
error even though the caller has `y`) — but the `Var` cells are shared in
both directions: an assignment in the defining environment after
construction is visible inside later calls (`closureCaptureProg` prints
`b`, not `a`), and an assignment by the closure to a captured variable is
visible in the caller after the call returns (`closureWriteProg` prints
`b`, not `a`). -/
theorem closure_capture_shares_cells (a b : Int) :
    runProg (closureCaptureProg a b) 10 = ([toString b], .ok) ∧
      runProg (closureWriteProg a b) 10 = ([toString b], .ok) ∧
      runProg (closureNewBindingProg a) 10 =
        ([], .err "error calling: undefined variable: y") := by
  refine ⟨rfl, rfl, rfl⟩

/-! ## C10: the for-each iteration variable is pushed, not declared -/

/-- C10: a for-each iteration binds its variable with `RuntimeEnv.push`,
which leaves the scope's declared-name set empty, so a `let` of the same
name directly inside the loop body succeeds (no redeclaration error) and
pushes a second binding that shadows the iteration variable for the rest
of the iteration. -/
theorem foreach_binding_shadow (dp : Interp) (item : Value) (rest : List Value)
    (n : String) (e : Expr) (tail : StmtList) (env : EnvData) (st st1 : St)
    (v : Value)
    (h : evalExprGo dp (pushVar (enterScope env) st n item).1.stack e
        (pushVar (enterScope env) st n item).2 = (st1, .ok v)) :
    ∃ env2 st2,
      declareVar (pushVar (enterScope env) st n item).1 st1 n v = some (env2, st2) ∧
      lookupVal env2.stack st2 n = some v ∧
      feachGo dp (item :: rest) n (.blockStmt (.cons (.varDecl n e) tail)) env st =
        (let r := execStmtsGo dp tail env2 st2
         match r.res with
         | .brk => ⟨r.st, exitScope r.env, .normal⟩
         | .normal =>
           dp.feach rest n (.blockStmt (.cons (.varDecl n e) tail)) (exitScope r.env) r.st
         | .cont =>
           dp.feach rest n (.blockStmt (.cons (.varDecl n e) tail)) (exitScope r.env) r.st
         | other => ⟨r.st, exitScope r.env, other⟩) := by
  have hset : (pushVar (enterScope env) st n item).1.declSets.getLast? = some [] := by
    show (env.declSets ++ [[]]).getLast? = some []
    simp
  have hdecl : declareVar (pushVar (enterScope env) st n item).1 st1 n v =
      some (pushVar
        { (pushVar (enterScope env) st n item).1 with
          declSets :=
            (pushVar (enterScope env) st n item).1.declSets.dropLast ++ [[] ++ [n]] }
        st1 n v) := by
    rw [declareVar, hset]
    simp
  refine ⟨_, _, hdecl, ?_, ?_⟩
  · show lookupVal ((pushVar (enterScope env) st n item).1.stack ++
        [(n, st1.cells.length)]) { cells := st1.cells ++ [v], output := st1.output } n =
      some v
    rw [lookupVal, lookupCell]
    simp [List.find?, List.getD]
  · simp only [feachGo, visitBlockGo, execStmtsGo, execStmtGo, h, hdecl]
    rfl

/-- C10 witness: iterating `for (let x in "a")` with body
`{ let x = 7; }` — the declaration succeeds and shadows. -/
theorem foreach_binding_shadow_witness :
    ∃ env2 st2,
      declareVar (pushVar (enterScope initialEnv) ⟨[], []⟩ "x" (.vstr "a")).1
          ⟨[.vstr "a"], []⟩ "x" (.vint 7) = some (env2, st2) ∧
      lookupVal env2.stack st2 "x" = some (.vint 7) ∧
      feachGo bottomInterp [.vstr "a"] "x"
          (.blockStmt (.cons (.varDecl "x" (.intLit 7)) .nil)) initialEnv ⟨[], []⟩ =
        (let r := execStmtsGo bottomInterp .nil env2 st2
         match r.res with
         | .brk => ⟨r.st, exitScope r.env, .normal⟩
         | .normal =>
           bottomInterp.feach [] "x"
             (.blockStmt (.cons (.varDecl "x" (.intLit 7)) .nil)) (exitScope r.env) r.st
         | .cont =>
           bottomInterp.feach [] "x"
             (.blockStmt (.cons (.varDecl "x" (.intLit 7)) .nil)) (exitScope r.env) r.st
         | other => ⟨r.st, exitScope r.env, other⟩) :=
  foreach_binding_shadow bottomInterp (.vstr "a") [] "x" (.intLit 7) .nil
    initialEnv ⟨[], []⟩ ⟨[.vstr "a"], []⟩ (.vint 7) rfl

/-! ## C8: scope balance

`EnvRel env envB` captures what any statement execution can do to the
environment shape: the scope-offset stack is unchanged (inner scopes are
pushed and popped in balanced pairs), the declared-set stack keeps its
length and all entries below the top, and the binding stack only grows
(declarations push; truncation inside inner scopes never drops below the
entry length). -/

structure EnvRel (env envB : EnvData) : Prop where
  offsets_eq : envB.offsets = env.offsets
  declSets_len : envB.declSets.length = env.declSets.length
  declSets_dropLast : envB.declSets.dropLast = env.declSets.dropLast
  stack_le : env.stack.length ≤ envB.stack.length

theorem envRel_refl (env : EnvData) : EnvRel env env :=
  ⟨rfl, rfl, rfl, Nat.le.refl⟩

theorem envRel_trans {e1 e2 e3 : EnvData} (h1 : EnvRel e1 e2) (h2 : EnvRel e2 e3) :
    EnvRel e1 e3 :=
  ⟨h2.offsets_eq.trans h1.offsets_eq, h2.declSets_len.trans h1.declSets_len,
   h2.declSets_dropLast.trans h1.declSets_dropLast, h1.stack_le.trans h2.stack_le⟩

/-- Exiting a scope whose body mutated the environment within `EnvRel`
restores the offset stack, the declared-set stack, and the binding-stack
length exactly to their values at the matching entry. -/
theorem scope_exit_restores (env envB : EnvData) (h : EnvRel (enterScope env) envB) :
    (exitScope envB).offsets = env.offsets ∧
      (exitScope envB).declSets = env.declSets ∧
      (exitScope envB).stack.length = env.stack.length := by
  obtain ⟨ho, _, hd, hs⟩ := h
  refine ⟨?_, ?_, ?_⟩
  · show envB.offsets.dropLast = env.offsets
    rw [ho]
    show (env.offsets ++ [env.stack.length]).dropLast = _
    simp
  · show envB.declSets.dropLast = env.declSets
    rw [hd]
    show (env.declSets ++ [[]]).dropLast = _
    simp
  · show (envB.stack.take (envB.offsets.getLastD 0)).length = env.stack.length
    rw [ho]
    show (envB.stack.take ((env.offsets ++ [env.stack.length]).getLastD 0)).length =
      env.stack.length
    have hg : (env.offsets ++ [env.stack.length]).getLastD 0 = env.stack.length := by
      simp
    rw [hg, List.length_take]
    have hs2 : env.stack.length ≤ envB.stack.length := hs
    omega

theorem envRel_of_scope (env envB : EnvData) (h : EnvRel (enterScope env) envB) :
    EnvRel env (exitScope envB) := by
  obtain ⟨ho, hd, hs⟩ := scope_exit_restores env envB h
  exact ⟨ho, by rw [hd], by rw [hd], Nat.le_of_eq hs.symm⟩

theorem pushVar_envRel (env : EnvData) (st : St) (n : String) (v : Value) :
    EnvRel env (pushVar env st n v).1 := by
  refine ⟨rfl, rfl, rfl, ?_⟩
  show env.stack.length ≤ (env.stack ++ [(n, st.cells.length)]).length
  simp

theorem declareVar_envRel (env : EnvData) (st : St) (n : String) (v : Value)
    (env2 : EnvData) (st2 : St) (h : declareVar env st n v = some (env2, st2)) :
    EnvRel env env2 := by
  rw [declareVar] at h
  split at h
  · exact absurd h (by simp)
  · split at h
    · exact absurd h (by simp)
    · rename_i cur hL hmem
      have hne : env.declSets ≠ [] := by
        intro hnil
        rw [hnil] at hL
        exact absurd hL (by simp)
      have hp := Option.some.inj h
      have he2 : (pushVar { env with declSets := env.declSets.dropLast ++ [cur ++ [n]] }
          st n v).1 = env2 := congrArg Prod.fst hp
      rw [← he2]
      refine ⟨rfl, ?_, ?_, ?_⟩
      · show (env.declSets.dropLast ++ [cur ++ [n]]).length = env.declSets.length
        rw [List.length_append, List.length_dropLast]
        have h1 : 1 ≤ env.declSets.length := by
          cases hx : env.declSets with
          | nil => exact absurd hx hne
          | cons a l => simp
        simp only [List.length_singleton]
        omega
      · show (env.declSets.dropLast ++ [cur ++ [n]]).dropLast = env.declSets.dropLast
        simp
      · show env.stack.length ≤ (env.stack ++ [(n, st.cells.length)]).length
        simp

/-- The fuel-recursion interface preserves the environment shape. -/
def InterpOK (dp : Interp) : Prop :=
  (∀ s env st, EnvRel env (dp.stmt s env st).env) ∧
  (∀ ss env st, EnvRel env (dp.stmts ss env st).env) ∧
  (∀ items n body env st, EnvRel env (dp.feach items n body env st).env)

mutual
theorem execStmtGo_envRel (dp : Interp) (hdp : InterpOK dp) :
    ∀ (s : Stmt) (env : EnvData) (st : St), EnvRel env (execStmtGo dp s env st).env
  | .blockStmt ss, env, st => by
    simp only [execStmtGo]
    exact envRel_of_scope env _ (execStmtsGo_envRel dp hdp ss (enterScope env) st)
  | .varDecl n e, env, st => by
    simp only [execStmtGo]
    split
    · split
      · rename_i hdecl
        exact declareVar_envRel _ _ _ _ _ _ hdecl
      · exact envRel_refl env
    · exact envRel_refl env
  | .ifStmt c tB, env, st => by
    simp only [execStmtGo]
    split
    · rename_i st1 v heq
      by_cases ht : truthy v
      · simp only [ht, if_true]
        exact envRel_of_scope env _ (visitBlockGo_envRel dp hdp tB (enterScope env) st1)
      · simp only [ht, if_false]
        exact envRel_of_scope env _ (envRel_refl (enterScope env))
    · exact envRel_refl env
  | .ifElseStmt c tB eB, env, st => by
    simp only [execStmtGo]
    split
    · rename_i st1 v heq
      by_cases ht : truthy v
      · simp only [ht, if_true]
        exact envRel_of_scope env _ (visitBlockGo_envRel dp hdp tB (enterScope env) st1)
      · simp only [ht, if_false]
        exact envRel_of_scope env _ (visitBlockGo_envRel dp hdp eB (enterScope env) st1)
    · exact envRel_refl env
  | .whileLoop c body, env, st => by
    simp only [execStmtGo]
    split
    · rename_i st1 v heq
      by_cases ht : truthy v
      · simp only [ht, if_true]
        have hexit := envRel_of_scope env _
          (visitBlockGo_envRel dp hdp body (enterScope env) st1)
        split
        · exact hexit
        · exact envRel_trans hexit (hdp.1 _ _ _)
        · exact envRel_trans hexit (hdp.1 _ _ _)
        · exact hexit
      · simp only [ht, if_false]
        exact envRel_refl env
    · exact envRel_refl env
  | .forEach n e body, env, st => by
    simp only [execStmtGo]
    split
    · split
      · exact hdp.2.2 _ n body env _
      · exact envRel_refl env
    · exact envRel_refl env
  | .breakStmt, env, st => envRel_refl env
  | .continueStmt, env, st => envRel_refl env
  | .returnStmt none, env, st => envRel_refl env
  | .returnStmt (some e), env, st => by
    simp only [execStmtGo]
    split
    · exact envRel_refl env
    · exact envRel_refl env
  | .tryStmt tB cB errN, env, st => by
    simp only [execStmtGo]
    have hexit := envRel_of_scope env _
      (visitBlockGo_envRel dp hdp tB (enterScope env) st)
    split
    · rename_i m heq
      have hpush : ∀ (env4 : EnvData × St),
          EnvRel (enterScope (exitScope (visitBlockGo dp tB (enterScope env) st).env))
            env4.1 →
          EnvRel env (exitScope (visitBlockGo dp cB env4.1 env4.2).env) := by
        intro env4 h4
        exact envRel_trans hexit (envRel_of_scope _ _
          (envRel_trans h4 (visitBlockGo_envRel dp hdp cB env4.1 env4.2)))
      cases errN with
      | some nm => exact hpush _ (pushVar_envRel _ _ nm (.verr m))
      | none => exact hpush _ (envRel_refl _)
    · exact hexit
  | .tryStmtSwapped tB cS eS, env, st => by
    simp only [execStmtGo]
    have hexit := envRel_of_scope env _
      (visitBlockGo_envRel dp hdp tB (enterScope env) st)
    split
    · rename_i m heq
      exact envRel_trans hexit (envRel_of_scope _ _
        (pushVar_envRel
          (enterScope (exitScope (visitBlockGo dp tB (enterScope env) st).env))
          _ _ (.verr m)))
    · exact hexit
  | .exprStmt e, env, st => by
    simp only [execStmtGo]
    split
    · exact envRel_refl env
    · exact envRel_refl env

theorem execStmtsGo_envRel (dp : Interp) (hdp : InterpOK dp) :
    ∀ (ss : StmtList) (env : EnvData) (st : St),
      EnvRel env (execStmtsGo dp ss env st).env
  | .nil, env, st => envRel_refl env
  | .cons s ss, env, st => by
    simp only [execStmtsGo]
    have h1 := execStmtGo_envRel dp hdp s env st
    split
    · exact envRel_trans h1 (execStmtsGo_envRel dp hdp ss _ _)
    · exact h1

theorem visitBlockGo_envRel (dp : Interp) (hdp : InterpOK dp) :
    ∀ (s : Stmt) (env : EnvData) (st : St), EnvRel env (visitBlockGo dp s env st).env
  | .blockStmt ss, env, st => execStmtsGo_envRel dp hdp ss env st
  | .varDecl n e, env, st => envRel_refl env
  | .ifStmt c tB, env, st => envRel_refl env
  | .ifElseStmt c tB eB, env, st => envRel_refl env
  | .whileLoop c body, env, st => envRel_refl env
  | .forEach n e body, env, st => envRel_refl env
  | .breakStmt, env, st => envRel_refl env
  | .continueStmt, env, st => envRel_refl env
  | .returnStmt v, env, st => envRel_refl env
  | .tryStmt tB cB errN, env, st => envRel_refl env
  | .tryStmtSwapped tB cS eS, env, st => envRel_refl env
  | .exprStmt e, env, st => envRel_refl env
end

theorem feachGo_envRel (dp : Interp) (hdp : InterpOK dp) (items : List Value)
    (n : String) (body : Stmt) (env : EnvData) (st : St) :
    EnvRel env (feachGo dp items n body env st).env := by
  cases items with
  | nil => exact envRel_refl env
  | cons item rest =>
    simp only [feachGo]
    have hexit := envRel_of_scope env _
      (envRel_trans (pushVar_envRel (enterScope env) st n item)
        (visitBlockGo_envRel dp hdp body (pushVar (enterScope env) st n item).1
          (pushVar (enterScope env) st n item).2))
    split
    · exact hexit
    · exact envRel_trans hexit (hdp.2.2 rest n body _ _)
    · exact envRel_trans hexit (hdp.2.2 rest n body _ _)
    · exact hexit

theorem mkInterp_ok : ∀ fuel : Nat, InterpOK (mkInterp fuel)
  | 0 =>
    ⟨fun _ env _ => envRel_refl env, fun _ env _ => envRel_refl env,
     fun _ _ _ env _ => envRel_refl env⟩
  | f + 1 => by
    have ih := mkInterp_ok f
    exact ⟨fun s env st => execStmtGo_envRel (mkInterp f) ih s env st,
      fun ss env st => execStmtsGo_envRel (mkInterp f) ih ss env st,
      fun items n body env st => feachGo_envRel (mkInterp f) ih items n body env st⟩

/-- Exact scope restoration: binding-stack length, declared-set-stack
length, and offset stack return to their values at scope entry. -/
def scopeRestored (env envB : EnvData) : Prop :=
  envB.stack.length = env.stack.length ∧
    envB.declSets.length = env.declSets.length ∧ envB.offsets = env.offsets

theorem scopeRestored_refl (env : EnvData) : scopeRestored env env := ⟨rfl, rfl, rfl⟩

theorem scopeRestored_trans {e1 e2 e3 : EnvData} (h1 : scopeRestored e1 e2)
    (h2 : scopeRestored e2 e3) : scopeRestored e1 e3 :=
  ⟨h2.1.trans h1.1, h2.2.1.trans h1.2.1, h2.2.2.trans h1.2.2⟩

theorem scopeRestored_of_scope (env envB : EnvData)
    (h : EnvRel (enterScope env) envB) : scopeRestored env (exitScope envB) := by
  obtain ⟨ho, hd, hs⟩ := scope_exit_restores env envB h
  exact ⟨hs, by rw [hd], ho⟩

theorem mkInterp_feach_restores :
    ∀ (fuel : Nat) (items : List Value) (n : String) (body : Stmt)
      (env : EnvData) (st : St),
      scopeRestored env ((mkInterp fuel).feach items n body env st).env
  | 0, items, n, body, env, st => scopeRestored_refl env
  | f + 1, items, n, body, env, st => by
    show scopeRestored env (feachGo (mkInterp f) items n body env st).env
    cases items with
    | nil => exact scopeRestored_refl env
    | cons item rest =>
      simp only [feachGo]
      have hexit := scopeRestored_of_scope env _
        (envRel_trans (pushVar_envRel (enterScope env) st n item)
          (visitBlockGo_envRel (mkInterp f) (mkInterp_ok f) body
            (pushVar (enterScope env) st n item).1
            (pushVar (enterScope env) st n item).2))
      split
      · exact hexit
      · exact scopeRestored_trans hexit (mkInterp_feach_restores f rest n body _ _)
      · exact scopeRestored_trans hexit (mkInterp_feach_restores f rest n body _ _)
      · exact hexit

theorem mkInterp_while_restores :
    ∀ (fuel : Nat) (c : Expr) (body : Stmt) (env : EnvData) (st : St),
      scopeRestored env ((mkInterp fuel).stmt (.whileLoop c body) env st).env
  | 0, c, body, env, st => scopeRestored_refl env
  | f + 1, c, body, env, st => by
    show scopeRestored env (execStmtGo (mkInterp f) (.whileLoop c body) env st).env
    simp only [execStmtGo]
    split
    · rename_i st1 v heq
      by_cases ht : truthy v
      · simp only [ht, if_true]
        have hexit := scopeRestored_of_scope env _
          (visitBlockGo_envRel (mkInterp f) (mkInterp_ok f) body (enterScope env) st1)
        split
        · exact hexit
        · exact scopeRestored_trans hexit (mkInterp_while_restores f c body _ _)
        · exact scopeRestored_trans hexit (mkInterp_while_restores f c body _ _)
        · exact hexit
      · simp only [ht, if_false]
        exact scopeRestored_refl env
    · exact scopeRestored_refl env

/-- C8: every scope entered during evaluation is exactly unwound on every
exit path — including `break`/`continue`/`return` transfers, runtime
errors, and fuel exhaustion.  For each scoped construct (block, if,
if/else, while iteration, for-each iteration, try/catch) the binding-stack
length, the declared-set-stack length, and the whole scope-offset stack
after execution equal their values before; a call in expression position
leaves the caller's environment untouched (the call-local scope lives in
the copied closure environment). -/
theorem scope_balance (fuel : Nat) (env : EnvData) (st : St) :
    (∀ ss, scopeRestored env ((mkInterp fuel).stmt (.blockStmt ss) env st).env) ∧
    (∀ c tB, scopeRestored env ((mkInterp fuel).stmt (.ifStmt c tB) env st).env) ∧
    (∀ c tB eB,
      scopeRestored env ((mkInterp fuel).stmt (.ifElseStmt c tB eB) env st).env) ∧
    (∀ c body,
      scopeRestored env ((mkInterp fuel).stmt (.whileLoop c body) env st).env) ∧
    (∀ n e body,
      scopeRestored env ((mkInterp fuel).stmt (.forEach n e body) env st).env) ∧
    (∀ tB cB errN,
      scopeRestored env ((mkInterp fuel).stmt (.tryStmt tB cB errN) env st).env) ∧
    (∀ e, ((mkInterp fuel).stmt (.exprStmt e) env st).env = env) := by
  cases fuel with
  | zero =>
    exact ⟨fun _ => scopeRestored_refl env, fun _ _ => scopeRestored_refl env,
      fun _ _ _ => scopeRestored_refl env, fun _ _ => scopeRestored_refl env,
      fun _ _ _ => scopeRestored_refl env, fun _ _ _ => scopeRestored_refl env,
      fun _ => rfl⟩
  | succ f =>
    have hok := mkInterp_ok f
    refine ⟨?_, ?_, ?_, ?_, ?_, ?_, ?_⟩
    · intro ss
      show scopeRestored env (execStmtGo (mkInterp f) (.blockStmt ss) env st).env
      simp only [execStmtGo]
      exact scopeRestored_of_scope env _
        (execStmtsGo_envRel (mkInterp f) hok ss (enterScope env) st)
    · intro c tB
      show scopeRestored env (execStmtGo (mkInterp f) (.ifStmt c tB) env st).env
      simp only [execStmtGo]
      split
      · rename_i st1 v heq
        by_cases ht : truthy v
        · simp only [ht, if_true]
          exact scopeRestored_of_scope env _
            (visitBlockGo_envRel (mkInterp f) hok tB (enterScope env) st1)
        · simp only [ht, if_false]
          exact scopeRestored_of_scope env _ (envRel_refl (enterScope env))
      · exact scopeRestored_refl env
    · intro c tB eB
      show scopeRestored env (execStmtGo (mkInterp f) (.ifElseStmt c tB eB) env st).env
      simp only [execStmtGo]
      split
      · rename_i st1 v heq
        by_cases ht : truthy v
        · simp only [ht, if_true]
          exact scopeRestored_of_scope env _
            (visitBlockGo_envRel (mkInterp f) hok tB (enterScope env) st1)
        · simp only [ht, if_false]
          exact scopeRestored_of_scope env _
            (visitBlockGo_envRel (mkInterp f) hok eB (enterScope env) st1)
      · exact scopeRestored_refl env
    · intro c body
      exact mkInterp_while_restores (f + 1) c body env st
    · intro n e body
      show scopeRestored env (execStmtGo (mkInterp f) (.forEach n e body) env st).env
      simp only [execStmtGo]
      split
      · split
        · exact mkInterp_feach_restores f _ n body env _
        · exact scopeRestored_refl env
      · exact scopeRestored_refl env
    · intro tB cB errN
      show scopeRestored env (execStmtGo (mkInterp f) (.tryStmt tB cB errN) env st).env
      simp only [execStmtGo]
      have hexit := scopeRestored_of_scope env _
        (visitBlockGo_envRel (mkInterp f) hok tB (enterScope env) st)
      split
      · rename_i m heq
        have hcatch : ∀ (env4 : EnvData × St),
            EnvRel
              (enterScope (exitScope (visitBlockGo (mkInterp f) tB (enterScope env) st).env))
              env4.1 →
            scopeRestored env
              (exitScope (visitBlockGo (mkInterp f) cB env4.1 env4.2).env) := by
          intro env4 h4
          exact scopeRestored_trans hexit (scopeRestored_of_scope _ _
            (envRel_trans h4 (visitBlockGo_envRel (mkInterp f) hok cB env4.1 env4.2)))
        cases errN with
        | some nm => exact hcatch _ (pushVar_envRel _ _ nm (.verr m))
        | none => exact hcatch _ (envRel_refl _)
      · exact hexit
    · intro e
      show (execStmtGo (mkInterp f) (.exprStmt e) env st).env = env
      simp only [execStmtGo]
      split
      · rfl
      · rfl

/-! ## C2: C-style for lowering (src/parse/parser.py)

`_rewrite_continue_stmts` descends into blocks, if-branches and try/catch
bodies — not into nested loops — and turns every `continue` into the
block `{ POST; continue; }`.  `_parse_for_loop_stmt` first appends a
trailing `continue` when the body is nonempty and does not already end in
one, then rewrites, and wraps everything as `{ INIT; while (COND) BODY' }`. -/

mutual
/-- `Parser._rewrite_continue_stmts` on a statement.  The `TryStmt` branch
(parser.py 253-260) builds `nodes.TryStmt(line, col, rewritten try_block,
err_var_binding_name, rewritten catch_block)` — but the constructor's
positional parameter order is `(line, col, try_block, catch_block,
err_var_binding_name)`, so the binding name lands in the catch-block slot
and the rewritten catch block lands in the binding-name slot: the swapped
node `tryStmtSwapped`.  On a node that is already swapped the same branch
fires again (it is still a `TryStmt` instance): the err_var_binding_name
field (the node in `errSlot`) moves to the catch-block slot unrewritten,
and the catch-block field (the string or `None` in `catchSlot`) falls
through every `isinstance` check of the recursive call unchanged and lands
back in the binding-name slot, yielding a well-typed try statement. -/
def rewriteStmt (post : Expr) : Stmt → Stmt
  | .blockStmt ss => .blockStmt (rewriteStmts post ss)
  | .ifStmt c tB => .ifStmt c (rewriteStmt post tB)
  | .ifElseStmt c tB eB => .ifElseStmt c (rewriteStmt post tB) (rewriteStmt post eB)
  | .tryStmt tB cB errN =>
      .tryStmtSwapped (rewriteStmt post tB) errN (rewriteStmt post cB)
  | .tryStmtSwapped tB catchSlot errSlot =>
      .tryStmt (rewriteStmt post tB) errSlot catchSlot
  | .continueStmt => .blockStmt (.cons (.exprStmt post) (.cons .continueStmt .nil))
  | s => s
/-- `Parser._rewrite_continue_stmts` mapped over a statement list. -/
def rewriteStmts (post : Expr) : StmtList → StmtList
  | .nil => .nil
  | .cons s ss => .cons (rewriteStmt post s) (rewriteStmts post ss)
end

mutual
/-- Whether a statement holds no try statement in any position the
continue-rewrite descends into: blocks and if-branches.  Nested loops stop
the descent, so try statements inside them are never touched by the
rewrite and do not matter here. -/
def noTry : Stmt → Bool
  | .blockStmt ss => noTryList ss
  | .ifStmt _ tB => noTry tB
  | .ifElseStmt _ tB eB => noTry tB && noTry eB
  | .tryStmt _ _ _ => false
  | .tryStmtSwapped _ _ _ => false
  | _ => true
/-- `noTry` over every statement of a list. -/
def noTryList : StmtList → Bool
  | .nil => true
  | .cons s ss => noTry s && noTryList ss
end

/-- The loop-body transformation of `_parse_for_loop_stmt`: when a post
expression is present, append a trailing `continue` if the body is
nonempty and its last statement is not already a `continue`, then rewrite
every continue. -/
def lowerForBody (body : StmtList) (post : Option Expr) : StmtList :=
  match post with
  | none => body
  | some p =>
    let withTrailing :=
      match body with
      | .nil => StmtList.nil
      | _ => if body.lastIsContinue then body else body.push .continueStmt
    rewriteStmts p withTrailing

/-- The full lowering of `for (INIT; COND; POST) BODY` built by
`_parse_for_loop_stmt` (COND defaults to `true` during parsing when
absent, so it is taken here as given). -/
def lowerFor (init : Option Stmt) (cond : Expr) (post : Option Expr)
    (body : StmtList) : Stmt :=
  let w := Stmt.whileLoop cond (.blockStmt (lowerForBody body post))
  .blockStmt
    (match init with
     | some i => .cons i (.cons w .nil)
     | none => .cons w .nil)

/-! ### Reference semantics for C-style for loops

The runtime has no for-loop node — the parser lowers it away — so the
reference semantics below are spec-side definitions.

`refLoopB`/`refForB` — Modelled from the spec: "POST runs after every
iteration — including iterations short-circuited by `continue`"; here
POST is evaluated at the loop level, after the iteration's scope has been
unwound (the claim's reading of "after every iteration").

`refLoopT`/`refForT` — the amended reference: POST is evaluated at the
program point where the iteration ends (at the `continue`, inside any
enclosing try and in the then-current scope, via the instrumented
executor `execStmtPGo`; at the end of the body for normal completion). -/

mutual
/-- The instrumented statement executor: like `execStmtGo`, but a
`continue` first evaluates `post` at its own program point; blocks,
if-branches, and try/catch bodies are instrumented recursively, while
nested loops and all other statements run under the plain executor.  The
try/catch arm follows the spec's intended descent; the source's rewrite
instead swaps the rebuilt node's fields, so the equivalence theorem is
restricted to bodies with no try in rewrite positions. -/
def execStmtPGo (dp : Interp) (post : Expr) : Stmt → EnvData → St → SOut
  | .blockStmt ss, env, st =>
    let r := execStmtsPGo dp post ss (enterScope env) st
    ⟨r.st, exitScope r.env, r.res⟩
  | .ifStmt c tB, env, st =>
    match evalExprGo dp env.stack c st with
    | (st1, .ok v) =>
      let r :=
        if truthy v then visitBlockPGo dp post tB (enterScope env) st1
        else ⟨st1, enterScope env, .normal⟩
      ⟨r.st, exitScope r.env, r.res⟩
    | (st1, r) => ⟨st1, env, eresToSRes r⟩
  | .ifElseStmt c tB eB, env, st =>
    match evalExprGo dp env.stack c st with
    | (st1, .ok v) =>
      let r :=
        if truthy v then visitBlockPGo dp post tB (enterScope env) st1
        else visitBlockPGo dp post eB (enterScope env) st1
      ⟨r.st, exitScope r.env, r.res⟩
    | (st1, r) => ⟨st1, env, eresToSRes r⟩
  | .tryStmt tB cB errN, env, st =>
    let r := visitBlockPGo dp post tB (enterScope env) st
    let env2 := exitScope r.env
    match r.res with
    | .err m =>
      let env3 := enterScope env2
      let e4 :=
        match errN with
        | some nm => pushVar env3 r.st nm (.verr m)
        | none => (env3, r.st)
      let rc := visitBlockPGo dp post cB e4.1 e4.2
      ⟨rc.st, exitScope rc.env, rc.res⟩
    | other => ⟨r.st, env2, other⟩
  | .continueStmt, env, st =>
    match evalExprGo dp env.stack post st with
    | (st1, .ok _) => ⟨st1, env, .cont⟩
    | (st1, r) => ⟨st1, env, eresToSRes r⟩
  | s, env, st => execStmtGo dp s env st

/-- Instrumented statement-list execution. -/
def execStmtsPGo (dp : Interp) (post : Expr) : StmtList → EnvData → St → SOut
  | .nil, env, st => ⟨st, env, .normal⟩
  | .cons s ss, env, st =>
    let r := execStmtPGo dp post s env st
    match r.res with
    | .normal => execStmtsPGo dp post ss r.env r.st
    | _ => r

/-- Instrumented block visit: a rewritten `continue` in branch position is
the block `{ POST; continue; }`, which `_visit_block_stmt` runs without an
extra scope. -/
def visitBlockPGo (dp : Interp) (post : Expr) : Stmt → EnvData → St → SOut
  | .blockStmt ss, env, st => execStmtsPGo dp post ss env st
  | .continueStmt, env, st =>
    match evalExprGo dp env.stack post st with
    | (st1, .ok _) => ⟨st1, env, .cont⟩
    | (st1, r) => ⟨st1, env, eresToSRes r⟩
  | s, env, st => visitBlockGo dp s env st
end

/-- Modelled from the spec: the while-part of the boundary reference —
POST runs after every iteration that ends normally or by `continue`,
evaluated at the loop level after the iteration scope is unwound.
`break` skips POST and ends the loop; `return` and errors propagate
without running POST.  Fuel levels mirror the lowered while loop. -/
def refLoopB : Nat → Expr → Option Expr → StmtList → EnvData → St → SOut
  | 0, _, _, _, env, st => ⟨st, env, .timeout⟩
  | f + 1, cond, post, body, env, st =>
    let dp := mkInterp f
    match evalExprGo dp env.stack cond st with
    | (st1, .ok v) =>
      if truthy v then
        let r := execStmtsGo dp body (enterScope env) st1
        let env2 := exitScope r.env
        match r.res with
        | .normal =>
          match post with
          | some p =>
            match evalExprGo dp env2.stack p r.st with
            | (st2, .ok _) => refLoopB f cond post body env2 st2
            | (st2, rr) => ⟨st2, env2, eresToSRes rr⟩
          | none => refLoopB f cond post body env2 r.st
        | .cont =>
          match post with
          | some p =>
            match evalExprGo dp env2.stack p r.st with
            | (st2, .ok _) => refLoopB f cond post body env2 st2
            | (st2, rr) => ⟨st2, env2, eresToSRes rr⟩
          | none => refLoopB f cond post body env2 r.st
        | .brk => ⟨r.st, env2, .normal⟩
        | other => ⟨r.st, env2, other⟩
      else ⟨st1, env, .normal⟩
    | (st1, r) => ⟨st1, env, eresToSRes r⟩

/-- Modelled from the spec: the boundary reference for the whole
`for (INIT; COND; POST) BODY` statement — a scope containing INIT and
the reference loop. -/
def refForB (fuel : Nat) (init : Option Stmt) (cond : Expr) (post : Option Expr)
    (body : StmtList) (env : EnvData) (st : St) : SOut :=
  match fuel with
  | 0 => ⟨st, env, .timeout⟩
  | f + 1 =>
    let dp := mkInterp f
    let e0 := enterScope env
    let r1 : SOut :=
      match init with
      | some i => execStmtGo dp i e0 st
      | none => ⟨st, e0, .normal⟩
    match r1.res with
    | .normal =>
      let r2 := refLoopB (f + 1) cond post body r1.env r1.st
      ⟨r2.st, exitScope r2.env, r2.res⟩
    | _ => ⟨r1.st, exitScope r1.env, r1.res⟩

/-- The amended reference: the while-part with POST evaluated at the
transfer point (instrumented body), and at the end of the body for normal
completion.  Fuel levels mirror the lowered while loop. -/
def refLoopT : Nat → Expr → Expr → StmtList → EnvData → St → SOut
  | 0, _, _, _, env, st => ⟨st, env, .timeout⟩
  | f + 1, cond, post, body, env, st =>
    let dp := mkInterp f
    match evalExprGo dp env.stack cond st with
    | (st1, .ok v) =>
      if truthy v then
        let r := execStmtsPGo dp post body (enterScope env) st1
        match r.res with
        | .normal =>
          match evalExprGo dp r.env.stack post r.st with
          | (st2, .ok _) => refLoopT f cond post body (exitScope r.env) st2
          | (st2, rr) => ⟨st2, exitScope r.env, eresToSRes rr⟩
        | .cont => refLoopT f cond post body (exitScope r.env) r.st
        | .brk => ⟨r.st, exitScope r.env, .normal⟩
        | other => ⟨r.st, exitScope r.env, other⟩
      else ⟨st1, env, .normal⟩
    | (st1, r) => ⟨st1, env, eresToSRes r⟩

/-- The amended reference for the whole statement. -/
def refForT (fuel : Nat) (init : Option Stmt) (cond : Expr) (post : Expr)
    (body : StmtList) (env : EnvData) (st : St) : SOut :=
  match fuel with
  | 0 => ⟨st, env, .timeout⟩
  | f + 1 =>
    let dp := mkInterp f
    let e0 := enterScope env
    let r1 : SOut :=
      match init with
      | some i => execStmtGo dp i e0 st
      | none => ⟨st, e0, .normal⟩
    match r1.res with
    | .normal =>
      let r2 := refLoopT (f + 1) cond post body r1.env r1.st
      ⟨r2.st, exitScope r2.env, r2.res⟩
    | _ => ⟨r1.st, exitScope r1.env, r1.res⟩

/-- Run a single C-style for statement under the boundary reference
semantics with the default built-ins, reporting the output. -/
def runForRef (init : Option Stmt) (cond : Expr) (post : Option Expr)
    (body : StmtList) (fuel : Nat) : List String × RunRes :=
  let e0 := seedBuiltins defaultBuiltins initialEnv ⟨[], []⟩
  let r := refForB fuel init cond post body e0.1 e0.2
  match r.res with
  | .normal => (r.st.output, .ok)
  | .brk => (r.st.output, .ierr "interpreter: sentinel escaped")
  | .cont => (r.st.output, .ierr "interpreter: sentinel escaped")
  | .ret _ => (r.st.output, .ierr "interpreter: sentinel escaped")
  | .err m => (r.st.output, .err m)
  | .ierr m => (r.st.output, .ierr m)
  | .timeout => (r.st.output, .timeout)

/-! ### The rewriting is the instrumented semantics -/

theorem enterScope_stack (env : EnvData) : (enterScope env).stack = env.stack := rfl

theorem exitScope_enterScope (env : EnvData) : exitScope (enterScope env) = env := by
  cases env with
  | mk stack offsets declSets =>
    simp [enterScope, exitScope]

/-- Executing the rewritten-continue block `{ POST; continue; }` in
statement position evaluates POST in the current stack (the extra scope is
entered and exited without effect) and raises the `Continue` transfer. -/
theorem exec_post_continue_block (dp : Interp) (post : Expr) (env : EnvData) (st : St) :
    execStmtGo dp (.blockStmt (.cons (.exprStmt post) (.cons .continueStmt .nil))) env st =
      (match evalExprGo dp env.stack post st with
       | (st1, .ok _) => ⟨st1, env, .cont⟩
       | (st1, r) => ⟨st1, env, eresToSRes r⟩) := by
  simp only [execStmtGo, execStmtsGo, enterScope_stack]
  cases he : evalExprGo dp env.stack post st with
  | mk st1 r =>
    cases r with
    | ok v => simp [execStmtGo, execStmtsGo, exitScope_enterScope]
    | err m => simp [exitScope_enterScope, eresToSRes]
    | ierr m => simp [exitScope_enterScope, eresToSRes]
    | timeout => simp [exitScope_enterScope, eresToSRes]

mutual
/-- Rewriting the continues of a statement and executing it is the
instrumented execution of the original statement, for statements with no
try in rewrite positions: the rewrite of a try statement is the swapped
node, whose catch never runs. -/
theorem execStmtGo_rewrite (dp : Interp) (post : Expr) :
    ∀ (s : Stmt), noTry s = true → ∀ (env : EnvData) (st : St),
      execStmtGo dp (rewriteStmt post s) env st = execStmtPGo dp post s env st
  | .blockStmt ss, h, env, st => by
    simp only [rewriteStmt, execStmtGo, execStmtPGo]
    rw [execStmtsGo_rewrite dp post ss h]
  | .varDecl n e, h, env, st => by
    simp only [rewriteStmt, execStmtPGo]
  | .ifStmt c tB, h, env, st => by
    simp only [rewriteStmt, execStmtGo, execStmtPGo,
      visitBlockGo_rewrite dp post tB h]
  | .ifElseStmt c tB eB, h, env, st => by
    have h2 := h
    simp only [noTry, Bool.and_eq_true] at h2
    simp only [rewriteStmt, execStmtGo, execStmtPGo,
      visitBlockGo_rewrite dp post tB h2.1, visitBlockGo_rewrite dp post eB h2.2]
  | .whileLoop c body, h, env, st => by
    simp only [rewriteStmt, execStmtPGo]
  | .forEach n e body, h, env, st => by
    simp only [rewriteStmt, execStmtPGo]
  | .breakStmt, h, env, st => by
    simp only [rewriteStmt, execStmtPGo]
  | .continueStmt, h, env, st => by
    simp only [rewriteStmt]
    rw [exec_post_continue_block]
    simp only [execStmtPGo]
  | .returnStmt v, h, env, st => by
    simp only [rewriteStmt, execStmtPGo]
  | .tryStmt tB cB errN, h, env, st => by
    simp [noTry] at h
  | .tryStmtSwapped tB cS eS, h, env, st => by
    simp [noTry] at h
  | .exprStmt e, h, env, st => by
    simp only [rewriteStmt, execStmtPGo]

theorem execStmtsGo_rewrite (dp : Interp) (post : Expr) :
    ∀ (ss : StmtList), noTryList ss = true → ∀ (env : EnvData) (st : St),
      execStmtsGo dp (rewriteStmts post ss) env st = execStmtsPGo dp post ss env st
  | .nil, h, env, st => rfl
  | .cons s ss, h, env, st => by
    have h2 := h
    simp only [noTryList, Bool.and_eq_true] at h2
    simp only [rewriteStmts, execStmtsGo, execStmtsPGo]
    rw [execStmtGo_rewrite dp post s h2.1]
    cases hr : (execStmtPGo dp post s env st).res with
    | normal => exact execStmtsGo_rewrite dp post ss h2.2 _ _
    | brk => rfl
    | cont => rfl
    | ret v => rfl
    | err m => rfl
    | ierr m => rfl
    | timeout => rfl

theorem visitBlockGo_rewrite (dp : Interp) (post : Expr) :
    ∀ (s : Stmt), noTry s = true → ∀ (env : EnvData) (st : St),
      visitBlockGo dp (rewriteStmt post s) env st = visitBlockPGo dp post s env st
  | .blockStmt ss, h, env, st => by
    simp only [rewriteStmt, visitBlockGo, visitBlockPGo]
    exact execStmtsGo_rewrite dp post ss h env st
  | .varDecl n e, h, env, st => by
    simp only [rewriteStmt, visitBlockGo, visitBlockPGo]
  | .ifStmt c tB, h, env, st => by
    simp only [rewriteStmt, visitBlockGo, visitBlockPGo]
  | .ifElseStmt c tB eB, h, env, st => by
    simp only [rewriteStmt, visitBlockGo, visitBlockPGo]
  | .whileLoop c body, h, env, st => by
    simp only [rewriteStmt, visitBlockPGo]
  | .forEach n e body, h, env, st => by
    simp only [rewriteStmt, visitBlockPGo]
  | .breakStmt, h, env, st => by
    simp only [rewriteStmt, visitBlockGo, visitBlockPGo]
  | .continueStmt, h, env, st => by
    simp only [rewriteStmt, visitBlockGo, visitBlockPGo, execStmtsGo,
      execStmtGo, enterScope_stack]
    cases he : evalExprGo dp env.stack post st with
    | mk st1 r =>
      cases r with
      | ok v => simp [execStmtGo]
      | err m => simp [eresToSRes]
      | ierr m => simp [eresToSRes]
      | timeout => simp [eresToSRes]
  | .returnStmt v, h, env, st => by
    simp only [rewriteStmt, visitBlockPGo]
  | .tryStmt tB cB errN, h, env, st => by
    simp [noTry] at h
  | .tryStmtSwapped tB cS eS, h, env, st => by
    simp [noTry] at h
  | .exprStmt e, h, env, st => by
    simp only [rewriteStmt, visitBlockGo, visitBlockPGo]
end

theorem isContinue_eq (s : Stmt) (h : s.isContinue = true) : s = .continueStmt := by
  cases s <;> simp [Stmt.isContinue] at h ⊢

/-- A statement list ending in `continue` never completes normally under
the instrumented executor: execution reaching the final `continue` yields
the `Continue` transfer (or an error from POST), and an earlier statement
stopping the list yields its own non-normal result. -/
theorem execStmtsPGo_last_continue (dp : Interp) (post : Expr) :
    ∀ (ss : StmtList), ss.lastIsContinue = true →
      ∀ env st, (execStmtsPGo dp post ss env st).res ≠ .normal
  | .nil, h, env, st => by simp [StmtList.lastIsContinue] at h
  | .cons s .nil, h, env, st => by
    rw [StmtList.lastIsContinue] at h
    rw [isContinue_eq s h]
    simp only [execStmtsPGo, execStmtPGo]
    cases he : evalExprGo dp env.stack post st with
    | mk st1 r =>
      cases r with
      | ok v => simp
      | err m => simp [eresToSRes]
      | ierr m => simp [eresToSRes]
      | timeout => simp [eresToSRes]
  | .cons s (.cons t ts), h, env, st => by
    rw [StmtList.lastIsContinue] at h
    simp only [execStmtsPGo]
    cases hr : (execStmtPGo dp post s env st).res with
    | normal => exact execStmtsPGo_last_continue dp post (.cons t ts) h _ _
    | brk => simp [hr]
    | cont => simp [hr]
    | ret v => simp [hr]
    | err m => simp [hr]
    | ierr m => simp [hr]
    | timeout => simp [hr]

theorem rewriteStmts_push (post : Expr) :
    ∀ (ss : StmtList) (y : Stmt),
      rewriteStmts post (ss.push y) = (rewriteStmts post ss).push (rewriteStmt post y)
  | .nil, y => rfl
  | .cons s ss, y => by
    simp only [StmtList.push, rewriteStmts]
    rw [rewriteStmts_push post ss]

/-- Sequencing through a list with a statement appended at the end. -/
theorem execStmtsGo_push (dp : Interp) :
    ∀ (ss : StmtList) (y : Stmt) (env : EnvData) (st : St),
      execStmtsGo dp (ss.push y) env st =
        (let r := execStmtsGo dp ss env st
         match r.res with
         | .normal => execStmtGo dp y r.env r.st
         | _ => r)
  | .nil, y, env, st => by
    simp only [StmtList.push, execStmtsGo]
    cases hr : (execStmtGo dp y env st).res with
    | normal =>
      simp only [hr]
      rw [← hr]
    | brk => simp [hr]
    | cont => simp [hr]
    | ret v => simp [hr]
    | err m => simp [hr]
    | ierr m => simp [hr]
    | timeout => simp [hr]
  | .cons s ss, y, env, st => by
    simp only [StmtList.push, execStmtsGo]
    cases hr : (execStmtGo dp s env st).res with
    | normal =>
      simp only [hr]
      exact execStmtsGo_push dp ss y _ _
    | brk => simp [hr]
    | cont => simp [hr]
    | ret v => simp [hr]
    | err m => simp [hr]
    | ierr m => simp [hr]
    | timeout => simp [hr]

/-- The lowered loop body behaves as the instrumented body followed, on
normal completion, by a POST evaluation and a `Continue` transfer. -/
theorem execStmtsGo_lowerForBody (dp : Interp) (post : Expr) (body : StmtList)
    (hbody : body ≠ .nil) (hnt : noTryList body = true) (env : EnvData) (st : St) :
    execStmtsGo dp (lowerForBody body (some post)) env st =
      (let r := execStmtsPGo dp post body env st
       match r.res with
       | .normal =>
         match evalExprGo dp r.env.stack post r.st with
         | (st2, .ok _) => ⟨st2, r.env, .cont⟩
         | (st2, rr) => ⟨st2, r.env, eresToSRes rr⟩
       | _ => r) := by
  match body, hbody with
  | .cons b bs, _ =>
    by_cases hlast : (StmtList.cons b bs).lastIsContinue
    · have hnn := execStmtsPGo_last_continue dp post (.cons b bs) hlast env st
      rw [show lowerForBody (.cons b bs) (some post) =
          rewriteStmts post (.cons b bs) from by
        simp [lowerForBody, hlast]]
      rw [execStmtsGo_rewrite dp post (.cons b bs) hnt env st]
      cases hr : (execStmtsPGo dp post (.cons b bs) env st).res with
      | normal => exact absurd hr hnn
      | brk => simp [hr]
      | cont => simp [hr]
      | ret v => simp [hr]
      | err m => simp [hr]
      | ierr m => simp [hr]
      | timeout => simp [hr]
    · rw [show lowerForBody (.cons b bs) (some post) =
          rewriteStmts post ((StmtList.cons b bs).push .continueStmt) from by
        simp [lowerForBody, hlast]]
      rw [rewriteStmts_push post (.cons b bs) .continueStmt]
      rw [execStmtsGo_push dp (rewriteStmts post (.cons b bs)) (rewriteStmt post .continueStmt)]
      rw [execStmtsGo_rewrite dp post (.cons b bs) hnt env st]
      cases hr : (execStmtsPGo dp post (.cons b bs) env st).res with
      | normal =>
        simp only [hr]
        rw [show rewriteStmt post .continueStmt =
            .blockStmt (.cons (.exprStmt post) (.cons .continueStmt .nil)) from rfl]
        rw [exec_post_continue_block]
      | brk => simp [hr]
      | cont => simp [hr]
      | ret v => simp [hr]
      | err m => simp [hr]
      | ierr m => simp [hr]
      | timeout => simp [hr]

/-- At equal fuel the while loop produced by the lowering runs exactly as
the amended reference loop, for every nonempty body without a try in
rewrite positions: fuel burns only at loop iterations and calls, which
the two sides take in lockstep. -/
theorem lowered_while_eq_refLoopT (post : Expr) (body : StmtList)
    (hbody : body ≠ .nil) (hnt : noTryList body = true) :
    ∀ (fuel : Nat) (cond : Expr) (env : EnvData) (st : St),
      (mkInterp fuel).stmt
          (.whileLoop cond (.blockStmt (lowerForBody body (some post)))) env st =
        refLoopT fuel cond post body env st
  | 0, cond, env, st => rfl
  | f + 1, cond, env, st => by
    show execStmtGo (mkInterp f)
        (.whileLoop cond (.blockStmt (lowerForBody body (some post)))) env st =
      refLoopT (f + 1) cond post body env st
    simp only [execStmtGo, refLoopT]
    cases hc : evalExprGo (mkInterp f) env.stack cond st with
    | mk st1 rc =>
      cases rc with
      | err m => rfl
      | ierr m => rfl
      | timeout => rfl
      | ok v =>
        by_cases ht : truthy v
        · simp only [ht, if_true, visitBlockGo]
          simp only [execStmtsGo_lowerForBody (mkInterp f) post body hbody hnt]
          cases hr : execStmtsPGo (mkInterp f) post body (enterScope env) st1 with
          | mk stp envp resp =>
            cases resp with
            | normal =>
              cases hp : evalExprGo (mkInterp f) envp.stack post stp with
              | mk st2 rr =>
                cases rr with
                | ok w =>
                  exact lowered_while_eq_refLoopT post body hbody hnt f cond
                    (exitScope envp) st2
                | err m => rfl
                | ierr m => rfl
                | timeout => rfl
            | cont =>
              exact lowered_while_eq_refLoopT post body hbody hnt f cond
                (exitScope envp) stp
            | brk => rfl
            | ret w => rfl
            | err m => rfl
            | ierr m => rfl
            | timeout => rfl
        · simp only [ht, if_false]
          rfl

/-- Executing a block holding one statement: enter a scope, run the
statement, exit the scope. -/
theorem execStmtGo_block_single (dp : Interp) (s : Stmt) (env : EnvData) (st : St) :
    execStmtGo dp (.blockStmt (.cons s .nil)) env st =
      (let r := execStmtGo dp s (enterScope env) st
       ⟨r.st, exitScope r.env, r.res⟩) := by
  simp only [execStmtGo, execStmtsGo]
  cases hr : execStmtGo dp s (enterScope env) st with
  | mk st1 env1 res1 => cases res1 <;> rfl

/-- Executing a block holding two statements: enter a scope, run the
first, on normal completion run the second, exit the scope. -/
theorem execStmtGo_block_pair (dp : Interp) (s1 s2 : Stmt) (env : EnvData) (st : St) :
    execStmtGo dp (.blockStmt (.cons s1 (.cons s2 .nil))) env st =
      (let r1 := execStmtGo dp s1 (enterScope env) st
       match r1.res with
       | .normal =>
         let r2 := execStmtGo dp s2 r1.env r1.st
         ⟨r2.st, exitScope r2.env, r2.res⟩
       | _ => ⟨r1.st, exitScope r1.env, r1.res⟩) := by
  simp only [execStmtGo, execStmtsGo]
  cases hr1 : execStmtGo dp s1 (enterScope env) st with
  | mk st1 env1 res1 =>
    cases res1 with
    | normal =>
      cases hr2 : execStmtGo dp s2 env1 st1 with
      | mk st2 env2 res2 => cases res2 <;> rfl
    | brk => rfl
    | cont => rfl
    | ret w => rfl
    | err m => rfl
    | ierr m => rfl
    | timeout => rfl

/-- C2 (amended): for every C-style for loop whose BODY is nonempty,
holds no try statement in a position the continue-rewrite descends into,
and whose POST is present, the parser's lowering — INIT and a while loop
over the continue-rewritten BODY inside a block — is, at every fuel,
exactly the reference semantics in which POST is evaluated at the program
point where the iteration ends: at each `continue` (in the then-current
scope) and at the end of the body on normal completion.  Try statements
must be excluded because the rewrite swaps the rebuilt `TryStmt`
constructor's catch-block and binding-name arguments, so a rewritten
try/catch raises `AttributeError` instead of running its catch. -/
theorem for_lowering_spec (fuel : Nat) (init : Option Stmt) (cond post : Expr)
    (body : StmtList) (hbody : body ≠ .nil) (hnt : noTryList body = true)
    (env : EnvData) (st : St) :
    (mkInterp fuel).stmt (lowerFor init cond (some post) body) env st =
      refForT fuel init cond post body env st := by
  cases fuel with
  | zero => rfl
  | succ f =>
    show execStmtGo (mkInterp f) (lowerFor init cond (some post) body) env st =
      refForT (f + 1) init cond post body env st
    cases init with
    | none =>
      rw [show lowerFor none cond (some post) body =
          .blockStmt (.cons (.whileLoop cond (.blockStmt (lowerForBody body (some post))))
            .nil) from rfl]
      rw [execStmtGo_block_single]
      rw [show execStmtGo (mkInterp f)
            (.whileLoop cond (.blockStmt (lowerForBody body (some post))))
            (enterScope env) st =
          refLoopT (f + 1) cond post body (enterScope env) st from
        lowered_while_eq_refLoopT post body hbody hnt (f + 1) cond (enterScope env) st]
      simp only [refForT]
    | some i =>
      rw [show lowerFor (some i) cond (some post) body =
          .blockStmt (.cons i
            (.cons (.whileLoop cond (.blockStmt (lowerForBody body (some post))))
              .nil)) from rfl]
      rw [execStmtGo_block_pair]
      simp only [refForT]
      cases hr1 : execStmtGo (mkInterp f) i (enterScope env) st with
      | mk st1 env1 res1 =>
        cases res1 with
        | normal =>
          rw [show execStmtGo (mkInterp f)
                (.whileLoop cond (.blockStmt (lowerForBody body (some post)))) env1 st1 =
              refLoopT (f + 1) cond post body env1 st1 from
            lowered_while_eq_refLoopT post body hbody hnt (f + 1) cond env1 st1]
        | brk => rfl
        | cont => rfl
        | ret w => rfl
        | err m => rfl
        | ierr m => rfl
        | timeout => rfl

/-- The shadowing program
`for (let i = 0; lt(i, 3); i = add(i, 1)) { let i = 10; print(i); }`:
its body declares a variable named like the loop variable, so the
textually-substituted POST of the lowering resolves `i` against the inner
binding. -/
def shadowInit : Stmt := .varDecl "i" (.intLit 0)

def shadowCond : Expr := .callExpr (.access "lt") (elist [.access "i", .intLit 3])

def shadowPost : Expr :=
  .assignExpr "i" (.callExpr (.access "add") (elist [.access "i", .intLit 1]))

def shadowBody : StmtList :=
  slist [.varDecl "i" (.intLit 10),
         .exprStmt (.callExpr (.access "print") (elist [.access "i"]))]

/-- C2 counterexample: the lowered shadowing program prints `10` once —
POST runs inside the iteration scope, where the body's `let i = 10`
shadows the loop variable, and the assignment writes through both cells —
while the reference that runs POST at the loop level after the iteration
scope is unwound prints `10` three times.  The lowering is therefore not
observationally equivalent to running POST "after every iteration". -/
theorem for_lowering_counterexample :
    runProg [.stmt (lowerFor (some shadowInit) shadowCond (some shadowPost)
        shadowBody)] 20 = (["10"], .ok) ∧
      runForRef (some shadowInit) shadowCond (some shadowPost) shadowBody 20 =
        (["10", "10", "10"], .ok) ∧
      (["10"] : List String) ≠ ["10", "10", "10"] :=
  ⟨rfl, rfl, by decide⟩

/-- Body used to witness the amended C2 theorem at concrete input. -/
def witBody : StmtList :=
  slist [.exprStmt (.callExpr (.access "print") (elist [.access "i"]))]

theorem for_lowering_spec_witness :
    witBody ≠ StmtList.nil ∧ noTryList witBody = true ∧
      (mkInterp 7).stmt
          (lowerFor (some shadowInit) shadowCond (some shadowPost) witBody)
          initialEnv ⟨[], []⟩ =
        refForT 7 (some shadowInit) shadowCond shadowPost witBody
          initialEnv ⟨[], []⟩ :=
  ⟨by decide, by decide,
   for_lowering_spec 7 (some shadowInit) shadowCond shadowPost witBody
     (by decide) (by decide) initialEnv ⟨[], []⟩⟩

/-- A for-loop body holding a try/catch: the try block reads an undefined
variable, the catch is supposed to print `caught`, and a `break` ends the
loop. -/
def tryBody : StmtList :=
  slist [.tryStmt
           (.blockStmt (slist [.exprStmt (.access "x")]))
           (.blockStmt (slist
             [.exprStmt (.callExpr (.access "print") (elist [.strLit "caught"]))]))
           none,
         .breakStmt]

/-- The continue-rewrite really mangles try/catch: lowering
`for (; true; 0) { try { x; } catch { print("caught"); } break; }` gives a
program whose swapped try node raises `AttributeError` when the catch
should fire, while the reference runs the catch, prints `caught`, and
ends the loop at the `break`. -/
theorem rewritten_try_catch_crashes :
    runProg [.stmt (lowerFor none (.boolLit true) (some (.intLit 0)) tryBody)] 10 =
        ([], .err "AttributeError: no attribute stmts") ∧
      runForRef none (.boolLit true) (some (.intLit 0)) tryBody 10 =
        (["caught"], .ok) :=
  ⟨rfl, rfl⟩

end Liftoff
